import Mathlib

/-!
# TurtleNetes: session tokens, access gates, identifier coercion, repository

A shallow embedding of the authentication layer of the repository
(`core/auth`, `core/serverKit/tools.go`), of `core/tools/mongo.go` and of
the generic repository and query builder
(`core/dbclient/mongo_querybuilder.go`).

Conventions of the embedding.

* A Go `string`, and a `[]byte` holding text, is a Lean `String`: text that
  is well-formed UTF-8.  Where it matters that a Go `string` may hold bytes
  that are not well-formed UTF-8 (the arguments of `CreateToken`), it is a
  `GoString`, and the functions that take it carry the suffix `Raw`; on
  well-formed text they are the functions without the suffix.  Raw bytes
  (digests, signatures, identifiers) are lists of `Byte`.
* The functions of the Go standard library and of `golang-jwt/jwt/v5` that the
  sources call are modelled next to the code that calls them.  The digests
  (`sha256.Sum256`, `md5.Sum`), the MAC (`HMAC-SHA256`) and the text of the
  first two token segments are not computed: they are the fields of `Lib`.
* The wall clock is an argument: every function that reads `time.Now()` takes
  the reading `now`, and all reads made during one call see that value.
* Logging (`lgr.Info`, `lgr.Error`) is left out.
* The document store is reached through the calls of `Driver`; `memDriver`
  is a model of it that keeps the documents in a list.
-/

namespace TurtleNetes

/-! ## Bytes and `encoding/hex` -/

abbrev Byte := Fin 256

/-- A fixed-size byte array `[n]byte`. -/
structure ByteArr (n : Nat) where
  bytes : List Byte
  size : bytes.length = n
deriving DecidableEq

/-- Models `hextable` of `encoding/hex`. -/
def hextable : List Char :=
  ['0', '1', '2', '3', '4', '5', '6', '7', '8', '9', 'a', 'b', 'c', 'd', 'e', 'f']

/-- Models `hextable[n]`. -/
def hexChar (n : Nat) : Char := hextable.getD n '0'

/-- Models `hex.EncodeToString` on the characters of the result: every byte `v`
gives `hextable[v>>4]` and `hextable[v&0x0f]`. -/
def hexEncode : List Byte → List Char
  | [] => []
  | v :: rest => hexChar (v.val / 16) :: hexChar (v.val % 16) :: hexEncode rest

/-- Models `hex.EncodeToString`. -/
def EncodeToString (src : List Byte) : String := String.mk (hexEncode src)

/-- Models `fromHexChar` of `encoding/hex`: the value of a hexadecimal digit of
either case. -/
def fromHexChar (c : Char) : Option Nat :=
  if '0'.toNat ≤ c.toNat ∧ c.toNat ≤ '9'.toNat then some (c.toNat - '0'.toNat)
  else if 'a'.toNat ≤ c.toNat ∧ c.toNat ≤ 'f'.toNat then some (c.toNat - 'a'.toNat + 10)
  else if 'A'.toNat ≤ c.toNat ∧ c.toNat ≤ 'F'.toNat then some (c.toNat - 'A'.toNat + 10)
  else none

/-- Models `hex.Decode` on the characters of the source: pairs of digits give bytes;
an invalid digit or an odd length is an error. -/
def hexDecode : List Char → Option (List Byte)
  | [] => some []
  | [_] => none
  | a :: b :: rest =>
    match fromHexChar a, fromHexChar b with
    | some x, some y =>
      match hexDecode rest with
      | some bs => some (Fin.ofNat (x * 16 + y) :: bs)
      | none => none
    | _, _ => none

/-! ## `time` -/

/-- A reading of the wall clock (`time.Now()`): the instant, in nanoseconds
since the Unix epoch, and the offset of the server's local zone at that
instant, in seconds east of UTC. -/
structure Time where
  unixNano : Int
  zoneOffset : Int
deriving DecidableEq

/-- Models `time.Second`, in nanoseconds. -/
def Second : Int := 1000000000

/-- Models `time.Hour`, in nanoseconds. -/
def Hour : Int := 3600 * Second

/-- Models `Time.Add`: the instant moved by a duration.  The zone offset is kept;
the sources never format a shifted time. -/
def Time.Add (t : Time) (d : Int) : Time := { t with unixNano := t.unixNano + d }

/-- Models `Time.Unix`: whole seconds since the epoch, rounded down. -/
def Time.Unix (t : Time) : Int := t.unixNano / Second

/-- A calendar date. -/
structure Date where
  year : Int
  month : Int
  day : Int
deriving DecidableEq

/-- The date of the proleptic Gregorian calendar that lies `days` days after
1970-01-01, as `Time.Date` reports it.  Days are counted from 1 March of
year 0; cycles of 400, 100, 4 and 1 years are cut off in turn (the last
cycle of each kind is one day longer, hence `n - n / 4`); the month follows
from the day of the March-based year. -/
def civilFromDays (days : Int) : Date :=
  let z := days + 719468
  let era := z / 146097
  let doe := z % 146097
  let n100 := doe / 36524
  let cent := n100 - n100 / 4
  let doc := doe - 36524 * cent
  let quad := doc / 1461
  let doq := doc - 1461 * quad
  let n1 := doq / 365
  let yoq := n1 - n1 / 4
  let doy := doq - 365 * yoq
  let yoe := 100 * cent + 4 * quad + yoq
  let mp := (5 * doy + 2) / 153
  let d := doy - (153 * mp + 2) / 5 + 1
  let m := if mp < 10 then mp + 3 else mp - 9
  { year := yoe + era * 400 + (if m ≤ 2 then 1 else 0), month := m, day := d }

/-- The number of days from 1970-01-01 to a date: the inverse of
`civilFromDays`, used to show that distinct days have distinct dates. -/
def daysFromCivil (d : Date) : Int :=
  let y := if d.month ≤ 2 then d.year - 1 else d.year
  let era := y / 400
  let yoe := y % 400
  let mp := if d.month > 2 then d.month - 3 else d.month + 9
  let doy := (153 * mp + 2) / 5 + d.day - 1
  let doe := yoe * 365 + yoe / 4 - yoe / 100 + doy
  era * 146097 + doe - 719468

/-- The number of the local calendar day of a clock reading, counted from
1970-01-01. -/
def Time.localDay (t : Time) : Int := (t.Unix + t.zoneOffset) / 86400

/-- Models `Time.Date`: year, month and day in the time's own (local) zone. -/
def Time.Date (t : Time) : Date := civilFromDays t.localDay

/-- Decimal digits of a natural number, most significant first, with at
least one digit. -/
def decimal (u : Nat) : List Char :=
  if u = 0 then ['0'] else (Nat.digits 10 u).reverse.map Nat.digitChar

/-- The digits that `appendInt` of `time/format.go` writes for the magnitude
`u`: two or four digits on the fast paths, else the decimal form padded with
zeros to `width` digits. -/
def padDigits (u : Nat) (width : Nat) : List Char :=
  if width = 2 ∧ u < 100 then
    [Nat.digitChar (u / 10), Nat.digitChar (u % 10)]
  else if width = 4 ∧ u < 10000 then
    [Nat.digitChar (u / 1000), Nat.digitChar (u / 100 % 10),
      Nat.digitChar (u / 10 % 10), Nat.digitChar (u % 10)]
  else
    List.replicate (width - (decimal u).length) '0' ++ decimal u

/-- Models `appendInt` of `time/format.go`: a minus sign when `x` is negative, then
the digits of its magnitude. -/
def appendInt (x : Int) (width : Nat) : List Char :=
  (if x < 0 then ['-'] else []) ++ padDigits x.natAbs width

/-- The layout `"2006-01-02"` applied to a date: `YYYY-MM-DD`. -/
def formatDate (d : Date) : String :=
  String.mk (appendInt d.year 4 ++ ['-'] ++ appendInt d.month 2 ++ ['-'] ++ appendInt d.day 2)

/-- Models `t.Format("2006-01-02")`. -/
def Time.Format (t : Time) : String := formatDate t.Date

/-! ## `golang-jwt/jwt/v5` -/

instance instDecidableEqExcept {ε α : Type} [DecidableEq ε] [DecidableEq α] :
    DecidableEq (Except ε α)
  | .ok a, .ok b => if h : a = b then isTrue (by rw [h]) else isFalse (fun e => h (by cases e; rfl))
  | .error a, .error b =>
    if h : a = b then isTrue (by rw [h]) else isFalse (fun e => h (by cases e; rfl))
  | .ok _, .error _ => isFalse (fun e => by cases e)
  | .error _, .ok _ => isFalse (fun e => by cases e)

/-- Models `jwt.RegisteredClaims`.  A `*NumericDate` is the number of whole seconds
since the epoch (`jwt.TimePrecision` is one second), `none` for nil. -/
structure RegisteredClaims where
  Issuer : String
  Subject : String
  Audience : List String
  ExpiresAt : Option Int
  NotBefore : Option Int
  IssuedAt : Option Int
  ID : String
deriving DecidableEq

/-- Embeds `Claims` of `core/auth/jwt.go`: three fields and the embedded
registered claims. -/
structure Claims extends RegisteredClaims where
  UserID : String
  Email : String
  Role : String
deriving DecidableEq

/-- Models `jwt.NewNumericDate`: the time truncated to `jwt.TimePrecision`. -/
def NewNumericDate (t : Time) : Option Int := some t.Unix

/-- The signing methods registered by the library.  `HS256` stands for the
value `jwt.SigningMethodHS256`; `other` for every other registered method. -/
inductive SigningMethod where
  | HS256
  | other (alg : String)
deriving DecidableEq

/-- Models `jwt.GetSigningMethod`: the method registered under an `alg` name, if
any. -/
def GetSigningMethod (alg : String) : Option SigningMethod :=
  if alg = "HS256" then some .HS256
  else if alg ∈ ["HS384", "HS512", "RS256", "RS384", "RS512", "ES256", "ES384", "ES512",
      "PS256", "PS384", "PS512", "EdDSA", "none"] then some (.other alg)
  else none

/-- The errors of the token engine: the sentinel errors of the library and
the errors the sources make with `errors.New`. -/
inductive Err where
  | TokenMalformed
  | TokenUnverifiable (cause : String)
  /-- Models `ErrTokenUnverifiable` wrapping the error that the key function
  returned ("error while executing keyfunc"). -/
  | Keyfunc (inner : Err)
  | TokenSignatureInvalid
  | TokenInvalidClaims (expired notValidYet : Bool)
  | New (msg : String)
deriving DecidableEq

/-- What the parser decodes from a compact token that has three well-formed
segments. -/
structure Segments where
  /-- The header and claims segments joined by a dot: the text that is
  signed. -/
  text : String
  /-- The `alg` entry of the decoded header, when it is a string. -/
  alg : Option String
  /-- The decoded claims segment. -/
  claims : Claims
  /-- The decoded signature segment. -/
  sig : List Byte
deriving DecidableEq

/-- A token string as the parser sees it: text that does not split into
three decodable segments, or the decoded segments. -/
inductive TokenString where
  | malformed
  | compact (s : Segments)
deriving DecidableEq

/-- Models `jwt.Token` after `ParseUnverified`. -/
structure Token where
  Method : SigningMethod
  Claims : Claims
  Signature : List Byte
  Valid : Bool
deriving DecidableEq

/-- The library functions that are taken as given. -/
structure Lib where
  /-- Models `sha256.Sum256`. -/
  sha256 : String → ByteArr 32
  /-- Models `md5.Sum`. -/
  md5 : String → ByteArr 16
  /-- HMAC-SHA256 of a message under a key (`SigningMethodHS256.Sign`). -/
  hmacSHA256 : (key : String) → (msg : String) → List Byte
  /-- Models `Token.SigningString` of a token made by
  `NewWithClaims(SigningMethodHS256, claims)`: the encoded header and claims. -/
  SigningString : Claims → String
  /-- Models `Verify` of the registered methods other than HS256. -/
  verifyOther : (alg : String) → (text : String) → (sig : List Byte) → (key : String) → Bool

/-- A value together with the calls of `GetJwtString` made to compute it,
oldest first, each with its arguments `(ip, email, uid)`. -/
structure Traced (α : Type) where
  val : α
  calls : List (String × String × String)
deriving DecidableEq

/-- Models `Parser.ParseUnverified`: the token without its signature checked,
and the text of its first two segments. -/
def ParseUnverified : TokenString → Except Err (Token × String)
  | .malformed => .error .TokenMalformed
  | .compact s =>
    match s.alg with
    | none => .error (.TokenUnverifiable "signing method (alg) is unspecified")
    | some a =>
      match GetSigningMethod a with
      | none => .error (.TokenUnverifiable "signing method (alg) is unavailable")
      | some m =>
        .ok ({ Method := m, Claims := s.claims, Signature := s.sig, Valid := false }, s.text)

/-- Models `SigningMethod.Verify`: whether the signature is the method's signature
of the text under the key. -/
def Verify (L : Lib) (m : SigningMethod) (text : String) (sig : List Byte) (key : String) :
    Bool :=
  match m with
  | .HS256 => decide (L.hmacSHA256 key text = sig)
  | .other alg => L.verifyOther alg text sig key

/-- Models `Validator.Validate` with the default options: `exp` and `nbf` are
checked against the clock when present, nothing else is. -/
def Validate (now : Time) (claims : Claims) : Except Err Unit :=
  let expired : Bool :=
    match claims.ExpiresAt with
    | none => false
    | some exp => !decide (now.unixNano < exp * Second)
  let notValidYet : Bool :=
    match claims.NotBefore with
    | none => false
    | some nbf => decide (now.unixNano < nbf * Second)
  if expired || notValidYet then .error (.TokenInvalidClaims expired notValidYet) else .ok ()

/-- Models `jwt.ParseWithClaims`: decode, ask the key function for the key, verify
the signature, validate the claims. -/
def ParseWithClaims (L : Lib) (now : Time) (tokenStr : TokenString)
    (keyFunc : Token → Traced (Except Err String)) : Traced (Except Err Token) :=
  match ParseUnverified tokenStr with
  | .error e => ⟨.error e, []⟩
  | .ok (token, text) =>
    let got := keyFunc token
    match got.val with
    | .error err => ⟨.error (.Keyfunc err), got.calls⟩
    | .ok key =>
      if Verify L token.Method text token.Signature key then
        match Validate now token.Claims with
        | .error e => ⟨.error e, got.calls⟩
        | .ok _ => ⟨.ok { token with Valid := true }, got.calls⟩
      else ⟨.error .TokenSignatureInvalid, got.calls⟩

/-! ## `core/auth/jwt.go` -/

def JWT_ISSUER : String := "files-receiver"

def JWT_EXPIRATION : Int := 12 * Hour

/-- Embeds `GetJwtString`: the hexadecimal SHA-256 digest of
`ip|email_uid^YYYY-MM-DD`, with the date of the clock reading. -/
def GetJwtString (L : Lib) (now : Time) (ip email uid : String) : String :=
  let date := now.Format
  let base := ip ++ "|" ++ email ++ "_" ++ uid ++ "^" ++ date
  let hash := L.sha256 base
  EncodeToString hash.bytes

/-- Embeds `CreateToken` for arguments that are well-formed text: claims
signed with HS256 under the derived secret.  The token is given by what the
parser decodes from it: the library's encoding of the header and the claims
decodes to the same header and claims.  (`CreateTokenRaw` is `CreateToken`
for arguments that need not be well-formed.) -/
def CreateToken (L : Lib) (now : Time) (ip uid email role : String) : Except Err TokenString :=
  let claims : Claims :=
    { UserID := uid
      Email := email
      Role := role
      Issuer := JWT_ISSUER
      Subject := ""
      Audience := []
      ExpiresAt := NewNumericDate (now.Add JWT_EXPIRATION)
      NotBefore := none
      IssuedAt := NewNumericDate now
      ID := "" }
  let secret := GetJwtString L now ip email uid
  let text := L.SigningString claims
  .ok (.compact { text := text, alg := some "HS256", claims := claims,
                  sig := L.hmacSHA256 secret text })

/-- The key function that `ParseToken` hands to the parser. -/
def keyFunc (L : Lib) (now : Time) (ip : String) (token : Token) : Traced (Except Err String) :=
  if token.Method ≠ .HS256 then ⟨.error (.New "unexpected signing method"), []⟩
  else
    ⟨.ok (GetJwtString L now ip token.Claims.Email token.Claims.UserID),
      [(ip, token.Claims.Email, token.Claims.UserID)]⟩

/-- Embeds `ParseToken`, with the calls of `GetJwtString` it makes. -/
def ParseTokenTraced (L : Lib) (now : Time) (tokenStr : TokenString) (ip : String) :
    Traced (Except Err Claims) :=
  let r := ParseWithClaims L now tokenStr (keyFunc L now ip)
  match r.val with
  | .error err => ⟨.error err, r.calls⟩
  | .ok token =>
    if !token.Valid then ⟨.error (.New "invalid token"), r.calls⟩
    else ⟨.ok token.Claims, r.calls⟩

/-- Embeds `ParseToken`. -/
def ParseToken (L : Lib) (now : Time) (tokenStr : TokenString) (ip : String) :
    Except Err Claims :=
  (ParseTokenTraced L now tokenStr ip).val

/-! ## `net` -/

/-- Models `net.SplitHostPort` on the characters of the address: host and port, or
`none` for each of its errors. -/
def SplitHostPort (hostport : List Char) : Option (List Char × List Char) :=
  -- the port starts after the last colon
  if ¬ hostport.contains ':' then none
  else
    let i := hostport.length - 1 - hostport.reverse.indexOf ':'
    if hostport.head? = some '[' then
      -- expect the first ']' just before the last ':'
      if ¬ hostport.contains ']' then none
      else
        let close := hostport.indexOf ']'
        if close + 1 = hostport.length then none
        else if close + 1 = i then
          let host := (hostport.take close).drop 1
          if (hostport.drop 1).contains '[' then none
          else if (hostport.drop (close + 1)).contains ']' then none
          else some (host, hostport.drop (i + 1))
        else none
    else
      let host := hostport.take i
      if host.contains ':' then none
      else if hostport.contains '[' then none
      else if hostport.contains ']' then none
      else some (host, hostport.drop (i + 1))

/-- The loop of `parseIPv4Fields` (`net/netip`): decimal octets without
leading zeros, separated by single dots; exactly four of them. -/
def parseIPv4Loop : List Char → (atStart : Bool) → (prev : Char) → (val digLen : Nat) →
    (fields : List Nat) → Option (List Nat)
  | [], _, _, val, _, fields => if fields.length < 3 then none else some (fields ++ [val])
  | c :: rest, atStart, prev, val, digLen, fields =>
    if '0'.toNat ≤ c.toNat ∧ c.toNat ≤ '9'.toNat then
      if digLen = 1 ∧ val = 0 then none
      else
        let val1 := val * 10 + (c.toNat - '0'.toNat)
        if val1 > 255 then none
        else parseIPv4Loop rest false c val1 (digLen + 1) fields
    else if c = '.' then
      if atStart ∨ rest = [] ∨ prev = '.' then none
      else if fields.length = 3 then none
      else parseIPv4Loop rest false c 0 0 (fields ++ [val])
    else none

/-- Models `parseIPv4Fields`: the four octets of a dotted-decimal address. -/
def parseIPv4Fields (s : List Char) : Option (List Nat) :=
  parseIPv4Loop s true ' ' 0 0 []

/-- The value of a run of hexadecimal digits. -/
def hexValue (ds : List Char) : Nat :=
  ds.foldl (fun acc c => acc * 16 + (fromHexChar c).getD 0) 0

/-- The loop of `parseIPv6` (`net/netip`): groups of up to four hexadecimal
digits separated by colons, at most one `::`, an optional trailing
dotted-decimal part.  The state is the rest of the text, the bytes written so
far and the position of the ellipsis.  Every round writes at least two bytes
and the loop runs while fewer than 16 are written, so 8 rounds suffice. -/
def parseIPv6Loop : (fuel : Nat) → (s : List Char) → (ip : List Nat) → (ellipsis : Option Nat) →
    Option (List Char × List Nat × Option Nat)
  | 0, s, ip, ellipsis => some (s, ip, ellipsis)
  | fuel + 1, s, ip, ellipsis =>
    if 16 ≤ ip.length then some (s, ip, ellipsis)
    else
      let ds := s.takeWhile (fun c => (fromHexChar c).isSome)
      let off := ds.length
      if off > 4 then none
      else if off = 0 then none
      else if (s.drop off).head? = some '.' then
        -- trailing IPv4
        if ellipsis = none ∧ ip.length ≠ 12 then none
        else if ip.length + 4 > 16 then none
        else
          match parseIPv4Fields s with
          | none => none
          | some fields => some ([], ip ++ fields, ellipsis)
      else
        let acc := hexValue ds
        let ip1 := ip ++ [acc / 256, acc % 256]
        match s.drop off with
        | [] => some ([], ip1, ellipsis)
        | c :: rest =>
          if c ≠ ':' then none
          else
            match rest with
            | [] => none
            | c1 :: rest1 =>
              if c1 = ':' then
                if ellipsis.isSome then none
                else
                  match rest1 with
                  | [] => some ([], ip1, some ip1.length)
                  | _ => parseIPv6Loop fuel rest1 ip1 (some ip1.length)
              else parseIPv6Loop fuel (c1 :: rest1) ip1 ellipsis

/-- Models `parseIPv6` as `net.ParseIP` uses it: the 16 bytes of the address.  An
address with a zone (`%`) is no result of `net.ParseIP`. -/
def parseIPv6 (text : List Char) : Option (List Nat) :=
  if text.contains '%' then none
  else
    let lead : Bool := text.take 2 = [':', ':']
    let s := if lead then text.drop 2 else text
    let ellipsis : Option Nat := if lead then some 0 else none
    if lead ∧ s = [] then some (List.replicate 16 0)
    else
      match parseIPv6Loop 8 s [] ellipsis with
      | none => none
      | some (rest, ip, ell) =>
        if rest ≠ [] then none
        else if ip.length < 16 then
          match ell with
          | none => none
          | some e => some (ip.take e ++ List.replicate (16 - ip.length) 0 ++ ip.drop e)
        else if ell.isSome then none
        else some ip

/-- Models `net.ParseIP`: the 16-byte form of a textual IPv4 or IPv6 address, `none`
for nil.  The first `.`, `:` or `%` of the text selects the parser. -/
def ParseIP (s : List Char) : Option (List Nat) :=
  match s.find? (fun c => c = '.' ∨ c = ':' ∨ c = '%') with
  | some '.' =>
    match parseIPv4Fields s with
    | some fields => some (List.replicate 10 0 ++ [255, 255] ++ fields)
    | none => none
  | some ':' => parseIPv6 s
  | _ => none

/-- Models `IP.To4`: the four bytes of an IPv4 address held in 16-byte form. -/
def To4 (ip : List Nat) : Option (List Nat) :=
  if ip.length = 16 ∧ ip.take 10 = List.replicate 10 0 ∧ (ip.drop 10).take 2 = [255, 255] then
    some (ip.drop 12)
  else none

/-- Models `IP.IsLoopback`. -/
def IsLoopback (ip : List Nat) : Bool :=
  match To4 ip with
  | some ip4 => ip4.head? = some 127
  | none => ip = List.replicate 15 0 ++ [1]

/-! ## `core/serverKit` -/

/-- Embeds `IsLocalhost` of `core/serverKit/tools.go`. -/
def IsLocalhost (ip : String) : Bool :=
  let host : String :=
    match SplitHostPort ip.data with
    | some (h, _) => String.mk h
    | none => ip
  if host = "localhost" ∨ host = "127.0.0.1" ∨ host = "::1" then true
  else
    match ParseIP host.data with
    | some parsedIP => IsLoopback parsedIP
    | none => false

/-- Embeds `GinServerConfig` of `core/serverKit/config.go`.  The map `ApiKeys` is its
lookup function. -/
structure GinServerConfig where
  Protocol : String
  Host : String
  Port : String
  Mongo : String
  MongoDbName : String
  ApiKeys : String → Option String

/-! ## `gin.Context` -/

/-- Modelled from the spec: the record `users.User` (package `turtle/users`
is not among the sources).  The caller identity of the spec carries a role
and an email; these are the two fields the gates assign, every other field
keeps its zero value. -/
structure User where
  Email : String
  Role : String
deriving DecidableEq

/-- A value stored in the request-scoped bag `c.Keys`. -/
inductive Value where
  | str (s : String)
  | user (u : User)
deriving DecidableEq

/-- The part of `gin.Context` that the gates read and write. -/
structure Context where
  /-- Models `c.ClientIP()`. -/
  ClientIP : String
  /-- Models `c.GetHeader(name)`: the empty string when the header is absent. -/
  Header : String → String
  /-- Models `c.Cookie(name)`: the value of the named cookie, `none` when the
  request has no such cookie. -/
  Cookie : String → Option TokenString
  /-- Models `c.Keys`. -/
  Keys : String → Option Value
  /-- The response status written so far. -/
  status : Nat
  /-- Whether the handler chain was aborted (`c.IsAborted()`). -/
  aborted : Bool
  /-- Models `c.Errors`. -/
  Errors : List Err

def StatusUnauthorized : Nat := 401

def StatusForbidden : Nat := 403

/-- Models `c.Set(key, value)`. -/
def Context.Set (c : Context) (key : String) (value : Value) : Context :=
  { c with Keys := fun k => if k = key then some value else c.Keys k }

/-- Models `c.Get(key)`. -/
def Context.Get (c : Context) (key : String) : Option Value := c.Keys key

/-- Models `c.AbortWithStatus(code)`. -/
def Context.AbortWithStatus (c : Context) (code : Nat) : Context :=
  { c with status := code, aborted := true }

/-- Models `c.AbortWithError(code, err)`. -/
def Context.AbortWithError (c : Context) (code : Nat) (err : Err) : Context :=
  let c1 := c.AbortWithStatus code
  { c1 with Errors := c1.Errors ++ [err] }

/-- Models `c.Next()`: the handlers further down the chain run on the context. -/
def Context.Next (c : Context) (downstream : Context → Context) : Context := downstream c

/-- What a call yields: the returned value, or a run-time panic. -/
inductive Outcome (α : Type) where
  | returned (a : α)
  | panicked
deriving DecidableEq

/-! ## `core/auth`: the two gates -/

def JWT_COOKIE_NAME : String := "docminer_token"

/-- Embeds `ApiKeysRequired` of `core/auth/apiKey_ctrl.go`, with the configuration
`serverKit.SERVER_CONFIG` as an argument. -/
def ApiKeysRequired (cfg : GinServerConfig) (c : Context) : Context :=
  let header := c.Header "Api-Key"
  match cfg.ApiKeys header with
  | some user => c.Set "userUid" (.str user)
  | none =>
    let clientIP := c.ClientIP
    if IsLocalhost clientIP then c.Set "userUid" (.str "localhost")
    else c.AbortWithError StatusUnauthorized (.New "Invalid Api-Key")

/-- Embeds `GetUserUidFromContext` of `core/auth/apiKey_ctrl.go`.  The type
assertion `user.(string)` panics on a value that is no string. -/
def GetUserUidFromContext (c : Context) : Outcome (Except Err String) :=
  match c.Get "userUid" with
  | some (.str user) => .returned (.ok user)
  | some (.user _) => .panicked
  | none => .returned (.error (.New "User Not Found"))

/-- Embeds `LoginOrLocalhost` of `core/auth/auth_ctrl.go`.  `downstream` is what
`c.Next()` runs. -/
def LoginOrLocalhost (L : Lib) (now : Time) (downstream : Context → Context) (c : Context) :
    Context :=
  let clientIP := c.ClientIP
  if IsLocalhost clientIP then
    let user : User := { Email := "localhost@pointe.sk", Role := "superadmin" }
    ((c.Set "userUid" (.str "localhost")).Set "user" (.user user)).Next downstream
  else
    match c.Cookie JWT_COOKIE_NAME with
    | none => c.AbortWithStatus StatusForbidden
    | some tokenStr =>
      match ParseToken L now tokenStr clientIP with
      | .error _ => c.AbortWithStatus StatusForbidden
      | .ok claims =>
        let user : User := { Email := claims.Email, Role := claims.Role }
        ((c.Set "userUid" (.str claims.UserID)).Set "user" (.user user)).Next downstream

/-! ## `core/tools/mongo.go` -/

/-- Models `primitive.ObjectID`: twelve bytes. -/
abbrev ObjectID := List Byte

/-- Models `primitive.NilObjectID`. -/
def NilObjectID : ObjectID := List.replicate 12 0

/-- Models `ObjectID.Hex`. -/
def ObjectID.Hex (id : ObjectID) : String := EncodeToString id

/-- Models `primitive.ObjectIDFromHex`: the bytes of a string of 24 hexadecimal
digits; the length is the length in bytes. -/
def ObjectIDFromHex (s : String) : Except Err ObjectID :=
  if s.utf8ByteSize ≠ 24 then .error (.New "the provided hex string is not a valid ObjectID")
  else
    match hexDecode s.data with
    | some oid => .ok oid
    | none => .error (.New "encoding/hex: invalid byte")

/-- Embeds `StringToObjectID` of `core/tools/mongo.go`. -/
def StringToObjectID (L : Lib) (s : String) : ObjectID :=
  let direct : Option ObjectID :=
    if s.utf8ByteSize = 24 then
      match ObjectIDFromHex s with
      | .ok objectID => some objectID
      | .error _ => none
    else none
  match direct with
  | some objectID => objectID
  | none =>
    let hash := L.md5 s
    let hexStr := String.mk ((EncodeToString hash.bytes).data.take 24)
    match ObjectIDFromHex hexStr with
    | .ok objectID => objectID
    | .error _ => NilObjectID

/-- A well-formed identifier text: 24 hexadecimal digits of either case. -/
def IsObjectIDHex (s : String) : Prop :=
  s.length = 24 ∧ ∀ c ∈ s.data, (fromHexChar c).isSome = true

instance instDecidableIsObjectIDHex (s : String) : Decidable (IsObjectIDHex s) :=
  inferInstanceAs (Decidable (_ ∧ _))

/-! ## Idealised cryptography -/

/-- The function `f` does not collide on the inputs `a` and `b`. -/
def NoCollision {α β : Type} (f : α → β) (a b : α) : Prop := a ≠ b → f a ≠ f b

/-! ## A concrete library, for evaluating the definitions -/

/-- A byte of a character code. -/
def byteOf (c : Char) : Byte := Fin.ofNat c.toNat

/-- Exactly `n` bytes read off a text: the codes of its characters, cut or
padded with zeros. -/
def padBytes (n : Nat) (s : String) : ByteArr n :=
  ⟨((s.data.map byteOf).take n) ++ List.replicate (n - ((s.data.map byteOf).take n).length) 0,
    by simp⟩

/-- A stand-in library whose digests are read off the start of the text and
whose MAC is the key followed by the message.  It serves to run the
definitions on concrete inputs only. -/
def toyLib : Lib where
  sha256 s := padBytes 32 s
  md5 s := padBytes 16 s
  hmacSHA256 key msg := (key ++ msg).data.map byteOf
  SigningString c := c.UserID ++ "." ++ c.Email ++ "." ++ c.Role
  verifyOther _ _ _ _ := false

/-- A request as the first gate of a chain receives it: nothing in the bag,
status 200, not aborted. -/
def newContext (clientIP : String) (apiKey : String) (cookie : Option TokenString) : Context where
  ClientIP := clientIP
  Header := fun name => if name = "Api-Key" then apiKey else ""
  Cookie := fun name => if name = JWT_COOKIE_NAME then cookie else none
  Keys := fun _ => none
  status := 200
  aborted := false
  Errors := []

/-- A configuration whose registry is the given lookup. -/
def configWith (apiKeys : String → Option String) : GinServerConfig where
  Protocol := "http"
  Host := "localhost"
  Port := "8080"
  Mongo := ""
  MongoDbName := ""
  ApiKeys := apiKeys

/-- The token that `CreateToken` makes under the stand-in library for subject
"u1" at 203.0.113.9 on 2025-11-04 22:00 UTC. -/
def sampleToken : TokenString :=
  match CreateToken toyLib ⟨1762293600 * Second, 0⟩ "203.0.113.9" "u1" "a@b.c" "admin" with
  | .ok tok => tok
  | .error _ => .malformed

/-! ## The clock in UTC -/

/-- Models `Time.UTC`: the same instant, read in the zone UTC. -/
def Time.UTC (t : Time) : Time := { t with zoneOffset := 0 }

/-! ## `go.mongodb.org/mongo-driver` -/

/-- A BSON value, as callers hand it in through `interface{}` and as the
code builds it with `bson.M`. -/
inductive Bson where
  | null
  | bool (b : Bool)
  | int (i : Int)
  | str (s : String)
  | oid (id : ObjectID)
  | arr (items : List Bson)
  | doc (fields : List (String × Bson))

/-- Models `bson.M`, a Go map from field names to values: the list of its
entries, each key at most once. -/
structure M where
  entries : List (String × Bson)

/-- The map `bson.M{}`. -/
def M.empty : M := ⟨[]⟩

/-- The lookup `m[key]`. -/
def M.get (m : M) (key : String) : Option Bson :=
  match m.entries.find? (fun e => e.1 = key) with
  | some e => some e.2
  | none => none

/-- The assignment `m[key] = value`: the entry for `key` is replaced. -/
def M.set (m : M) (key : String) (value : Bson) : M :=
  ⟨(key, value) :: m.entries.filter (fun e => e.1 ≠ key)⟩

/-- The errors of the data layer: the sentinel `mongo.ErrNoDocuments`, any
other error of the driver (network, timeout, decoding, duplicate key), and
an error wrapped by `fmt.Errorf("...: %w", err)`. -/
inductive DbErr where
  | ErrNoDocuments
  | Driver (msg : String)
  | Errorf (msg : String) (inner : DbErr)
deriving DecidableEq

/-- Models `errors.Is`: the error or one of the errors it wraps is the target. -/
def DbErr.Is : DbErr → DbErr → Bool
  | .Errorf msg inner, target => decide (DbErr.Errorf msg inner = target) || inner.Is target
  | .ErrNoDocuments, target => decide (DbErr.ErrNoDocuments = target)
  | .Driver msg, target => decide (DbErr.Driver msg = target)

/-- Models `options.FindOptions`: the three options the query builder sets, `none`
for an option that is not set.  `SortBy` is the Go field `Sort`. -/
structure FindOptions where
  Limit : Option Int
  Skip : Option Int
  SortBy : Option (List (String × Int))
deriving DecidableEq

/-- Models `options.Find()`: no option set. -/
def FindOptions.Find : FindOptions := { Limit := none, Skip := none, SortBy := none }

/-- Models `FindOptions.SetLimit`. -/
def FindOptions.SetLimit (o : FindOptions) (limit : Int) : FindOptions :=
  { o with Limit := some limit }

/-- Models `FindOptions.SetSkip`. -/
def FindOptions.SetSkip (o : FindOptions) (skip : Int) : FindOptions :=
  { o with Skip := some skip }

/-- Models `FindOptions.SetSort`. -/
def FindOptions.SetSort (o : FindOptions) (sort : List (String × Int)) : FindOptions :=
  { o with SortBy := some sort }

/-- The calls on `mongo.Collection` that the repository makes, for a store in
state `S` holding entities of type `T`.  Each call runs under the
repository's timeout and may fail with any error. -/
structure Driver (S T : Type) where
  /-- Models `collection.InsertOne(ctx, entity)`: the `InsertedID` or the error, and
  the store afterwards. -/
  InsertOne : S → T → Except DbErr Bson × S
  /-- Models `collection.FindOne(ctx, filter).Decode(&entity)`. -/
  FindOne : S → M → Except DbErr T
  /-- Models `collection.Find(ctx, filter, opts)`: the error, or the cursor, given
  by what `cursor.All` yields on it. -/
  Find : S → M → FindOptions → Except DbErr (Except DbErr (List T))

/-! ## `core/dbclient/mongo_querybuilder.go` -/

/-- Embeds `Repository.InsertOne`: the identifier and the store afterwards. -/
def Repository.InsertOne {S T : Type} (D : Driver S T) (st : S) (entity : T) :
    Except DbErr ObjectID × S :=
  match D.InsertOne st entity with
  | (.error err, st1) => (.error (.Errorf "failed to insert document" err), st1)
  | (.ok (.oid oid), st1) => (.ok oid, st1)
  | (.ok _, st1) => (.ok NilObjectID, st1)

/-- Embeds `Repository.FindOne`: `.ok none` is the absent result `(nil, nil)`. -/
def Repository.FindOne {S T : Type} (D : Driver S T) (st : S) (filter : M) :
    Except DbErr (Option T) :=
  match D.FindOne st filter with
  | .error err =>
    if err.Is .ErrNoDocuments then .ok none
    else .error (.Errorf "failed to find document" err)
  | .ok entity => .ok (some entity)

/-- Embeds `Repository.FindByID`. -/
def Repository.FindByID {S T : Type} (D : Driver S T) (st : S) (id : ObjectID) :
    Except DbErr (Option T) :=
  Repository.FindOne D st (M.empty.set "_id" (.oid id))

/-- Embeds `Repository.FindMany`. -/
def Repository.FindMany {S T : Type} (D : Driver S T) (st : S) (filter : M)
    (opts : FindOptions) : Except DbErr (List T) :=
  match D.Find st filter opts with
  | .error err => .error (.Errorf "failed to find documents" err)
  | .ok cursor =>
    match cursor with
    | .error err => .error (.Errorf "failed to decode documents" err)
    | .ok entities => .ok entities

/-- Embeds `QueryBuilder`: the accumulated filter and options.  The repository
it points to is the driver and store handed to the executing calls. -/
structure QueryBuilder where
  filter : M
  opts : FindOptions

/-- Embeds `Repository.NewQueryBuilder`. -/
def NewQueryBuilder : QueryBuilder := { filter := M.empty, opts := FindOptions.Find }

/-- Embeds `QueryBuilder.Where`. -/
def QueryBuilder.Where (qb : QueryBuilder) (key : String) (value : Bson) : QueryBuilder :=
  { qb with filter := qb.filter.set key value }

/-- Embeds `QueryBuilder.WhereIn`. -/
def QueryBuilder.WhereIn (qb : QueryBuilder) (key : String) (values : Bson) : QueryBuilder :=
  { qb with filter := qb.filter.set key (.doc [("$in", values)]) }

/-- Embeds `QueryBuilder.WhereGreaterThan`. -/
def QueryBuilder.WhereGreaterThan (qb : QueryBuilder) (key : String) (value : Bson) :
    QueryBuilder :=
  { qb with filter := qb.filter.set key (.doc [("$gt", value)]) }

/-- Embeds `QueryBuilder.WhereLessThan`. -/
def QueryBuilder.WhereLessThan (qb : QueryBuilder) (key : String) (value : Bson) :
    QueryBuilder :=
  { qb with filter := qb.filter.set key (.doc [("$lt", value)]) }

/-- Embeds `QueryBuilder.Limit`. -/
def QueryBuilder.Limit (qb : QueryBuilder) (limit : Int) : QueryBuilder :=
  { qb with opts := qb.opts.SetLimit limit }

/-- Embeds `QueryBuilder.Skip`. -/
def QueryBuilder.Skip (qb : QueryBuilder) (skip : Int) : QueryBuilder :=
  { qb with opts := qb.opts.SetSkip skip }

/-- Embeds `QueryBuilder.Sort`. -/
def QueryBuilder.SortBy (qb : QueryBuilder) (field : String) (order : Int) : QueryBuilder :=
  { qb with opts := qb.opts.SetSort [(field, order)] }

/-- Embeds `QueryBuilder.Execute`. -/
def QueryBuilder.Execute {S T : Type} (D : Driver S T) (st : S) (qb : QueryBuilder) :
    Except DbErr (List T) :=
  Repository.FindMany D st qb.filter qb.opts

/-- Embeds `QueryBuilder.First`: the result, and the builder afterwards (its
options are changed in place). -/
def QueryBuilder.First {S T : Type} (D : Driver S T) (st : S) (qb : QueryBuilder) :
    Except DbErr (Option T) × QueryBuilder :=
  let qb1 : QueryBuilder := { qb with opts := qb.opts.SetLimit 1 }
  match Repository.FindMany D st qb1.filter qb1.opts with
  | .error err => (.error err, qb1)
  | .ok [] => (.ok none, qb1)
  | .ok (first :: _) => (.ok (some first), qb1)

/-- A call of one of the four filter methods of the query builder. -/
inductive FilterCall where
  | Where (key : String) (value : Bson)
  | WhereIn (key : String) (values : Bson)
  | WhereGreaterThan (key : String) (value : Bson)
  | WhereLessThan (key : String) (value : Bson)

/-- The field that a call names. -/
def FilterCall.key : FilterCall → String
  | .Where key _ => key
  | .WhereIn key _ => key
  | .WhereGreaterThan key _ => key
  | .WhereLessThan key _ => key

/-- The constraint that a call states: the value itself, `{$in: values}`,
`{$gt: value}` or `{$lt: value}`. -/
def FilterCall.constraint : FilterCall → Bson
  | .Where _ value => value
  | .WhereIn _ values => .doc [("$in", values)]
  | .WhereGreaterThan _ value => .doc [("$gt", value)]
  | .WhereLessThan _ value => .doc [("$lt", value)]

/-- The call made on a builder. -/
def FilterCall.apply (c : FilterCall) (qb : QueryBuilder) : QueryBuilder :=
  match c with
  | .Where key value => qb.Where key value
  | .WhereIn key values => qb.WhereIn key values
  | .WhereGreaterThan key value => qb.WhereGreaterThan key value
  | .WhereLessThan key value => qb.WhereLessThan key value

/-- A sequence of calls made on a builder, first call first. -/
def applyCalls (calls : List FilterCall) (qb : QueryBuilder) : QueryBuilder :=
  calls.foldl (fun q c => c.apply q) qb

/-- The last call of a sequence that names the field, if any. -/
def lastCallOn (key : String) (calls : List FilterCall) : Option FilterCall :=
  calls.reverse.find? (fun c => c.key = key)

/-! ## A model of the document store -/

/-- Whether two identifier values are the same scalar.  Identifiers that are
arrays or documents are outside the model: they compare unequal. -/
def Bson.sameScalar : Bson → Bson → Bool
  | .null, .null => true
  | .bool a, .bool b => decide (a = b)
  | .int a, .int b => decide (a = b)
  | .str a, .str b => decide (a = b)
  | .oid a, .oid b => decide (a = b)
  | _, _ => false

/-- A stored document: its `_id` and the entity whose fields it holds. -/
structure Doc (T : Type) where
  id : Bson
  body : T

/-- The state of a collection held in memory: its documents in insertion
order, and the number of inserts made so far. -/
structure Mem (T : Type) where
  docs : List (Doc T)
  inserts : Nat

/-- How entities of type `T` look to the store. -/
structure Schema (T : Type) where
  /-- The `_id` that the entity is marshalled with, `none` when it has none. -/
  idOf : T → Option Bson
  /-- The entity with its identifier field read from the given `_id`, as
  `Decode` fills it in from a stored document; an entity type without an
  identifier field is left as it is. -/
  setID : Bson → T → T
  /-- The entity with its identifier field blanked: what is left of it when
  the identifier field is ignored. -/
  withoutID : T → T
  /-- Reading the identifier field changes nothing but the identifier field. -/
  withoutID_setID : ∀ (id : Bson) (e : T), withoutID (setID id e) = withoutID e
  /-- Whether the entity satisfies the constraint that a filter puts on a
  field other than `_id`. -/
  holds : String → Bson → T → Bool
  /-- The identifier that the driver generates on the n-th insert
  (`primitive.NewObjectID`). -/
  newID : Nat → ObjectID
  /-- The documents in the order that a sort option asks for. -/
  order : List (String × Int) → List T → List T

/-- Whether a document matches a filter: every entry of the filter holds. -/
def Mem.matches {T : Type} (σ : Schema T) (filter : M) (d : Doc T) : Bool :=
  filter.entries.all (fun e => if e.1 = "_id" then e.2.sameScalar d.id else σ.holds e.1 e.2 d.body)

/-- The entity that a stored document decodes to (`Decode(&entity)`): the
fields of the stored entity, with the identifier field read from the `_id`
of the document. -/
def Doc.decode {T : Type} (σ : Schema T) (d : Doc T) : T :=
  σ.setID d.id d.body

/-- The driver of the in-memory collection.  An insert stores the entity
under its own `_id`, or under a generated one when it has none, and is
refused when the `_id` is taken; a find decodes the matching documents, in
insertion order, sorted, skipped and limited as the options ask. -/
def memDriver {T : Type} (σ : Schema T) : Driver (Mem T) T where
  InsertOne st entity :=
    let id : Bson := (σ.idOf entity).getD (.oid (σ.newID st.inserts))
    if st.docs.any (fun d => id.sameScalar d.id) then
      (.error (.Driver "E11000 duplicate key error"), { st with inserts := st.inserts + 1 })
    else
      (.ok id, { docs := st.docs ++ [{ id := id, body := entity }], inserts := st.inserts + 1 })
  FindOne st filter :=
    match st.docs.find? (Mem.matches σ filter) with
    | some d => .ok (d.decode σ)
    | none => .error .ErrNoDocuments
  Find st filter opts :=
    let found := (st.docs.filter (Mem.matches σ filter)).map (fun d => d.decode σ)
    let sorted :=
      match opts.SortBy with
      | some sort => σ.order sort found
      | none => found
    let skipped :=
      match opts.Skip with
      | some n => sorted.drop n.toNat
      | none => sorted
    let limited :=
      match opts.Limit with
      | some n => if n = 0 then skipped else skipped.take n.natAbs
      | none => skipped
    .ok (.ok limited)

/-- A sample entity type: a note with an optional identifier of its own (a
string) and a text. -/
structure Note where
  key : Option String
  text : String
deriving DecidableEq

/-- The key that a note is decoded with: a string `_id` as it is, an
ObjectID `_id` as its hexadecimal text (the driver decodes an ObjectID into a
string field so), and the key left alone for an `_id` of another type. -/
def Note.setID : Bson → Note → Note
  | .str k, n => { n with key := some k }
  | .oid id, n => { n with key := some (EncodeToString id) }
  | _, n => n

/-- The schema of notes: the key is the `_id`, the field `text` is compared
for equality, generated identifiers count up, sorting keeps the order. -/
def noteSchema : Schema Note where
  idOf n := n.key.map Bson.str
  setID := Note.setID
  withoutID n := { n with key := none }
  withoutID_setID id n := by cases id <;> rfl
  holds field c n := decide (field = "text") && c.sameScalar (.str n.text)
  newID n := List.replicate 11 0 ++ [Fin.ofNat (n + 1)]
  order _ l := l

/-- A driver whose every call fails with the given error. -/
def failingDriver (T : Type) (err : DbErr) : Driver Unit T where
  InsertOne st _ := (.error err, st)
  FindOne _ _ := .error err
  Find _ _ _ := .error err

/-! ## The host part of an address -/

/-- The host that `IsLocalhost` examines: the host that `net.SplitHostPort`
yields, or the whole text when `net.SplitHostPort` fails. -/
def hostOf (ip : String) : String :=
  match SplitHostPort ip.data with
  | some (h, _) => String.mk h
  | none => ip

/-- Whether a host text parses as an IP address that is a loopback address. -/
def isLoopbackText (host : String) : Bool :=
  match ParseIP host.data with
  | some parsedIP => IsLoopback parsedIP
  | none => false

/-- The host part of an address as the specification words it: the text
with an optional `:port` suffix removed and the brackets stripped, the port
being optional also after a bracketed host. -/
def specHostPart (ip : String) : String :=
  match SplitHostPort ip.data with
  | some (h, _) => String.mk h
  | none =>
    if ip.data.head? = some '[' ∧ ip.data.getLast? = some ']' then
      String.mk ((ip.data.drop 1).dropLast)
    else ip

/-- The predicate that the specification states for `IsLocalhost`: the host
part is the literal "localhost" or parses as a loopback address. -/
def specIsLocalhost (ip : String) : Bool :=
  decide (specHostPart ip = "localhost") || isLoopbackText (specHostPart ip)

/-! ## Text that need not be well-formed UTF-8 -/

/-- One step of reading a Go string as UTF-8 (`utf8.DecodeRuneInString`): a
well-formed character, or one byte that is part of none (the step that
yields `utf8.RuneError` with width 1). -/
inductive Utf8Step where
  | char (c : Char)
  | stray (b : Byte)
deriving DecidableEq

/-- Whether the step read a well-formed character. -/
def Utf8Step.isChar : Utf8Step → Bool
  | .char _ => true
  | .stray _ => false

/-- A Go `string` whose bytes need not be well-formed UTF-8, given by the
steps in which it is read: its well-formed characters, and between them the
bytes that belong to none.  (A stray byte is 0x80 or above, and stray bytes in
a row do not make up a character; a list that breaks this stands for no
string, and what is proved for every `GoString` holds for it as well.) -/
structure GoString where
  steps : List Utf8Step
deriving DecidableEq

instance instAppendGoString : Append GoString := ⟨fun a b => ⟨a.steps ++ b.steps⟩⟩

/-- A well-formed text as a Go string. -/
def GoString.ofString (s : String) : GoString := ⟨s.data.map .char⟩

/-- Models `utf8.ValidString`: whether the string is well-formed UTF-8. -/
def GoString.ValidString (g : GoString) : Bool := g.steps.all Utf8Step.isChar

/-- The text that `encoding/json` writes for a Go string, and that is read
back from it: the string coerced to valid UTF-8, each byte that is part of no
well-formed character replaced by U+FFFD. -/
def GoString.toValidUTF8 (g : GoString) : String :=
  ⟨g.steps.map (fun u => match u with
    | .char c => c
    | .stray _ => Char.ofNat 0xFFFD)⟩

/-- The library functions that are taken as given, with the digest of strings
that need not be well-formed; on well-formed text it is the digest of the
text. -/
structure RawLib extends Lib where
  /-- Models `sha256.Sum256` on the bytes of a Go string. -/
  sha256Raw : GoString → ByteArr 32
  sha256Raw_ofString : ∀ s : String, sha256Raw (GoString.ofString s) = sha256 s

/-- Embeds `GetJwtString` for arguments that need not be well-formed text. -/
def GetJwtStringRaw (L : RawLib) (now : Time) (ip email uid : GoString) : String :=
  let date := now.Format
  let base := ip ++ GoString.ofString "|" ++ email ++ GoString.ofString "_" ++ uid
    ++ GoString.ofString "^" ++ GoString.ofString date
  let hash := L.sha256Raw base
  EncodeToString hash.bytes

/-- Embeds `CreateToken` for arguments that need not be well-formed text.
The secret is derived from the arguments as they are.  The token is given by
what the parser decodes from it; its claims segment is written by
`encoding/json`, which coerces every string to valid UTF-8, so the decoded
claims hold the coerced texts. -/
def CreateTokenRaw (L : RawLib) (now : Time) (ip uid email role : GoString) :
    Except Err TokenString :=
  let claims : Claims :=
    { UserID := uid.toValidUTF8
      Email := email.toValidUTF8
      Role := role.toValidUTF8
      Issuer := JWT_ISSUER
      Subject := ""
      Audience := []
      ExpiresAt := NewNumericDate (now.Add JWT_EXPIRATION)
      NotBefore := none
      IssuedAt := NewNumericDate now
      ID := "" }
  let secret := GetJwtStringRaw L now ip email uid
  let text := L.SigningString claims
  .ok (.compact { text := text, alg := some "HS256", claims := claims,
                  sig := L.hmacSHA256 secret text })

/-- The key function that `ParseToken` hands to the parser, for a client IP
that need not be well-formed text; the email and the subject id are those of
the decoded claims.  The call is recorded with the IP coerced to text. -/
def keyFuncRaw (L : RawLib) (now : Time) (ip : GoString) (token : Token) :
    Traced (Except Err String) :=
  if token.Method ≠ .HS256 then ⟨.error (.New "unexpected signing method"), []⟩
  else
    ⟨.ok (GetJwtStringRaw L now ip (GoString.ofString token.Claims.Email)
        (GoString.ofString token.Claims.UserID)),
      [(ip.toValidUTF8, token.Claims.Email, token.Claims.UserID)]⟩

/-- Embeds `ParseToken` for a client IP that need not be well-formed text. -/
def ParseTokenRaw (L : RawLib) (now : Time) (tokenStr : TokenString) (ip : GoString) :
    Except Err Claims :=
  let r := ParseWithClaims L.toLib now tokenStr (keyFuncRaw L now ip)
  match r.val with
  | .error err => .error err
  | .ok token =>
    if !token.Valid then .error (.New "invalid token")
    else .ok token.Claims

/-- The byte that a step of reading stands for in the stand-in digest. -/
def stepByte : Utf8Step → Byte
  | .char c => byteOf c
  | .stray b => b

/-- Exactly `n` bytes read off a Go string, cut or padded with zeros. -/
def padSteps (n : Nat) (g : GoString) : ByteArr n :=
  ⟨((g.steps.map stepByte).take n)
      ++ List.replicate (n - ((g.steps.map stepByte).take n).length) 0,
    by simp⟩

/-- The stand-in library with the digest of Go strings read off the start of
the string. -/
def toyRawLib : RawLib where
  toLib := toyLib
  sha256Raw g := padSteps 32 g
  sha256Raw_ofString s := by
    simp [padSteps, padBytes, toyLib, GoString.ofString, List.map_map, Function.comp_def,
      stepByte]

/-- The email "a@b.c" followed by the byte 0xFF, which is part of no
well-formed character. -/
def illFormedEmail : GoString := GoString.ofString "a@b.c" ++ ⟨[.stray 0xFF]⟩

/-- The subject id "u1" followed by the byte 0xFF. -/
def illFormedUid : GoString := GoString.ofString "u1" ++ ⟨[.stray 0xFF]⟩

/-- The client IP "1.2.3.4" followed by the byte 0xFF. -/
def illFormedIP : GoString := GoString.ofString "1.2.3.4" ++ ⟨[.stray 0xFF]⟩

/-- The role "admin" followed by the byte 0xFF. -/
def illFormedRole : GoString := GoString.ofString "admin" ++ ⟨[.stray 0xFF]⟩

/-! ## Lemmas on the hexadecimal encoding -/

theorem hexEncode_length (bs : List Byte) : (hexEncode bs).length = 2 * bs.length := by
  induction bs with
  | nil => rfl
  | cons v rest ih => simp [hexEncode, ih]; omega

theorem hexChar_mem (n : Nat) (h : n < 16) : hexChar n ∈ hextable := by
  have : ∀ k : Fin 16, hexChar k.val ∈ hextable := by decide
  exact this ⟨n, h⟩

theorem hexEncode_mem (bs : List Byte) : ∀ c ∈ hexEncode bs, c ∈ hextable := by
  induction bs with
  | nil => intro c hc; simp [hexEncode] at hc
  | cons v rest ih =>
    intro c hc
    simp only [hexEncode, List.mem_cons] at hc
    rcases hc with h | h | h
    · rw [h]; exact hexChar_mem _ (by omega)
    · rw [h]; exact hexChar_mem _ (by omega)
    · exact ih c h

theorem fromHexChar_hexChar (n : Nat) (h : n < 16) : fromHexChar (hexChar n) = some n := by
  have : ∀ k : Fin 16, fromHexChar (hexChar k.val) = some k.val := by decide
  exact this ⟨n, h⟩

theorem hexDecode_hexEncode (bs : List Byte) : hexDecode (hexEncode bs) = some bs := by
  induction bs with
  | nil => rfl
  | cons v rest ih =>
    have h1 : v.val / 16 < 16 := by omega
    have h2 : v.val % 16 < 16 := by omega
    simp only [hexEncode, hexDecode, fromHexChar_hexChar _ h1, fromHexChar_hexChar _ h2, ih]
    congr 2
    apply Fin.ext
    simp [Fin.ofNat]
    omega

theorem hexEncode_injective : Function.Injective hexEncode := by
  intro a b h
  have := congrArg hexDecode h
  simpa [hexDecode_hexEncode] using this

theorem EncodeToString_injective : Function.Injective EncodeToString := by
  intro a b h
  exact hexEncode_injective (congrArg String.data h)

/-! ## Lemmas on dates and their text -/

theorem cycle_split (doe : Int) (h0 : 0 ≤ doe) (h1 : doe < 146097) :
    let n100 := doe / 36524
    let cent := n100 - n100 / 4
    let doc := doe - 36524 * cent
    let quad := doc / 1461
    let doq := doc - 1461 * quad
    let n1 := doq / 365
    let yoq := n1 - n1 / 4
    let doy := doq - 365 * yoq
    0 ≤ cent ∧ cent ≤ 3 ∧ 0 ≤ quad ∧ quad ≤ 24 ∧ 0 ≤ yoq ∧ yoq ≤ 3 ∧ 0 ≤ doy ∧ doy ≤ 365 ∧
      doe = 36524 * cent + 1461 * quad + 365 * yoq + doy := by
  intro n100 cent doc quad doq n1 yoq doy
  have hn : 0 ≤ n100 ∧ n100 ≤ 4 := by omega
  have hc : 0 ≤ cent ∧ cent ≤ 3 := by omega
  have hdoc : 0 ≤ doc ∧ doc ≤ 36524 := by omega
  have hq : 0 ≤ quad ∧ quad ≤ 24 := by omega
  have hdoq : 0 ≤ doq ∧ doq ≤ 1460 := by omega
  have hn1 : 0 ≤ n1 ∧ n1 ≤ 4 := by omega
  have hy : 0 ≤ yoq ∧ yoq ≤ 3 := by omega
  have hdoy : 0 ≤ doy ∧ doy ≤ 365 := by omega
  refine ⟨hc.1, hc.2, hq.1, hq.2, hy.1, hy.2, hdoy.1, hdoy.2, ?_⟩
  omega

theorem month_split (doy : Int) (h0 : 0 ≤ doy) (h1 : doy ≤ 365) :
    0 ≤ (5 * doy + 2) / 153 ∧ (5 * doy + 2) / 153 ≤ 11 ∧
      1 ≤ doy - (153 * ((5 * doy + 2) / 153) + 2) / 5 + 1 ∧
      doy - (153 * ((5 * doy + 2) / 153) + 2) / 5 + 1 ≤ 31 := by
  omega

/-- The day number is recovered from the date. -/
theorem daysFromCivil_civilFromDays (z : Int) : daysFromCivil (civilFromDays z) = z := by
  have hdoe0 : 0 ≤ (z + 719468) % 146097 := Int.emod_nonneg _ (by decide)
  have hdoe1 : (z + 719468) % 146097 < 146097 := Int.emod_lt_of_pos _ (by decide)
  have hz : z + 719468 = 146097 * ((z + 719468) / 146097) + (z + 719468) % 146097 :=
    (Int.ediv_add_emod _ _).symm
  obtain ⟨c0, c3, q0, q24, y0, y3, d0, d365, hsplit⟩ := cycle_split _ hdoe0 hdoe1
  obtain ⟨m0, m11, -, -⟩ := month_split _ d0 d365
  simp only [civilFromDays, daysFromCivil]
  generalize (z + 719468) % 146097 = doe at *
  generalize (z + 719468) / 146097 = era at *
  generalize doe / 36524 - doe / 36524 / 4 = cent at *
  generalize (doe - 36524 * cent) / 1461 = quad at *
  generalize (doe - 36524 * cent - 1461 * quad) / 365
    - (doe - 36524 * cent - 1461 * quad) / 365 / 4 = yoq at *
  generalize hdoy : doe - 36524 * cent - 1461 * quad - 365 * yoq = doy at *
  generalize (5 * doy + 2) / 153 = mp at *
  have e1 : (100 * cent + 4 * quad + yoq + era * 400) / 400 = era := by omega
  have e2 : (100 * cent + 4 * quad + yoq + era * 400) % 400 = 100 * cent + 4 * quad + yoq := by
    omega
  have e3 : (100 * cent + 4 * quad + yoq) / 4 = 25 * cent + quad := by omega
  have e4 : (100 * cent + 4 * quad + yoq) / 100 = cent := by omega
  split_ifs
  all_goals first
    | omega
    | (simp only [add_zero, add_sub_cancel_right, sub_add_cancel, e1, e2, e3, e4]; omega)

theorem civilFromDays_injective : Function.Injective civilFromDays := by
  intro a b h
  have := congrArg daysFromCivil h
  simpa [daysFromCivil_civilFromDays] using this

/-- Month and day of a date that `civilFromDays` yields are in range. -/
theorem civilFromDays_range (z : Int) :
    1 ≤ (civilFromDays z).month ∧ (civilFromDays z).month ≤ 12 ∧
      1 ≤ (civilFromDays z).day ∧ (civilFromDays z).day ≤ 31 := by
  have hdoe0 : 0 ≤ (z + 719468) % 146097 := Int.emod_nonneg _ (by decide)
  have hdoe1 : (z + 719468) % 146097 < 146097 := Int.emod_lt_of_pos _ (by decide)
  obtain ⟨-, -, -, -, -, -, d0, d365, -⟩ := cycle_split _ hdoe0 hdoe1
  obtain ⟨m0, m11, dd1, dd31⟩ := month_split _ d0 d365
  simp only [civilFromDays]
  refine ⟨?_, ?_, dd1, dd31⟩
  · split_ifs <;> omega
  · split_ifs <;> omega

theorem digitChar_inj (a b : Nat) (ha : a < 10) (hb : b < 10)
    (h : Nat.digitChar a = Nat.digitChar b) : a = b := by
  have key : ∀ x y : Fin 10, Nat.digitChar x.val = Nat.digitChar y.val → x = y := by decide
  exact congrArg Fin.val (key ⟨a, ha⟩ ⟨b, hb⟩ h)

theorem digitChar_ne_minus (a : Nat) (ha : a < 10) : Nat.digitChar a ≠ '-' := by
  have key : ∀ x : Fin 10, Nat.digitChar x.val ≠ '-' := by decide
  exact key ⟨a, ha⟩

theorem map_digitChar_inj : ∀ (l₁ l₂ : List Nat), (∀ x ∈ l₁, x < 10) → (∀ x ∈ l₂, x < 10) →
    l₁.map Nat.digitChar = l₂.map Nat.digitChar → l₁ = l₂
  | [], [], _, _, _ => rfl
  | [], _ :: _, _, _, h => by simp at h
  | _ :: _, [], _, _, h => by simp at h
  | a :: l₁, b :: l₂, h₁, h₂, h => by
    simp only [List.map_cons, List.cons.injEq] at h
    have hab := digitChar_inj a b (h₁ a (by simp)) (h₂ b (by simp)) h.1
    have ht := map_digitChar_inj l₁ l₂ (fun x hx => h₁ x (by simp [hx]))
      (fun x hx => h₂ x (by simp [hx])) h.2
    rw [hab, ht]

theorem decimal_length (u : Nat) (h : 10000 ≤ u) : 5 ≤ (decimal u).length := by
  have hu : u ≠ 0 := by omega
  simp only [decimal, hu, if_false, List.length_map, List.length_reverse]
  by_contra hlt
  have hlen : (Nat.digits 10 u).length ≤ 4 := by omega
  have h1 : u < 10 ^ (Nat.digits 10 u).length := Nat.lt_base_pow_length_digits (by decide)
  have h2 : 10 ^ (Nat.digits 10 u).length ≤ 10 ^ 4 := Nat.pow_le_pow_right (by decide) hlen
  omega

theorem decimal_inj (u v : Nat) (hu : u ≠ 0) (hv : v ≠ 0) (h : decimal u = decimal v) :
    u = v := by
  simp only [decimal, hu, hv, if_false, ← List.map_reverse] at h
  have hr := map_digitChar_inj _ _
    (fun x hx => Nat.digits_lt_base (by decide) (List.mem_reverse.mp hx))
    (fun x hx => Nat.digits_lt_base (by decide) (List.mem_reverse.mp hx)) h
  exact Nat.digits.injective 10 (List.reverse_injective hr)

theorem decimal_ne_minus (u : Nat) : ∀ c ∈ decimal u, c ≠ '-' := by
  intro c hc
  unfold decimal at hc
  split_ifs at hc with h0
  · simp only [List.mem_singleton] at hc
    rw [hc]; decide
  · simp only [List.mem_map, List.mem_reverse] at hc
    obtain ⟨d, hd, rfl⟩ := hc
    exact digitChar_ne_minus d (Nat.digits_lt_base (by decide) hd)

theorem padDigits_four_inj (u v : Nat) (h : padDigits u 4 = padDigits v 4) : u = v := by
  have e4 : ¬ ((4 : Nat) = 2) := by decide
  simp only [padDigits, e4, false_and, if_false, true_and] at h
  by_cases hu : u < 10000 <;> by_cases hv : v < 10000
  · simp only [hu, hv, if_true, List.cons.injEq, and_true] at h
    obtain ⟨h1, h2, h3, h4⟩ := h
    have a1 := digitChar_inj _ _ (by omega) (by omega) h1
    have a2 := digitChar_inj _ _ (by omega) (by omega) h2
    have a3 := digitChar_inj _ _ (by omega) (by omega) h3
    have a4 := digitChar_inj _ _ (by omega) (by omega) h4
    omega
  · have hl := decimal_length v (by omega)
    have := congrArg List.length h
    simp [hu, hv] at this
    omega
  · have hl := decimal_length u (by omega)
    have := congrArg List.length h
    simp [hu, hv] at this
    omega
  · have hlu := decimal_length u (by omega)
    have hlv := decimal_length v (by omega)
    have zu : 4 - (decimal u).length = 0 := by omega
    have zv : 4 - (decimal v).length = 0 := by omega
    simp only [hu, hv, if_false, zu, zv, List.replicate_zero, List.nil_append] at h
    exact decimal_inj u v (by omega) (by omega) h

theorem padDigits_four_ne_minus (u : Nat) : ∀ c ∈ padDigits u 4, c ≠ '-' := by
  intro c hc
  have e4 : ¬ ((4 : Nat) = 2) := by decide
  simp only [padDigits, e4, false_and, if_false, true_and] at hc
  split_ifs at hc with hu
  · simp only [List.mem_cons, List.mem_singleton, List.not_mem_nil, or_false] at hc
    rcases hc with h | h | h | h <;> rw [h] <;> exact digitChar_ne_minus _ (by omega)
  · rcases List.mem_append.mp hc with h | h
    · rw [(List.mem_replicate.mp h).2]; decide
    · exact decimal_ne_minus u c h

/-- The year field determines the year. -/
theorem appendInt_four_inj (x y : Int) (h : appendInt x 4 = appendInt y 4) : x = y := by
  unfold appendInt at h
  by_cases hx : x < 0 <;> by_cases hy : y < 0
  · simp only [hx, hy, if_true, List.singleton_append, List.cons.injEq, true_and] at h
    have := padDigits_four_inj _ _ h
    omega
  · simp only [hx, hy, if_true, if_false, List.singleton_append, List.nil_append] at h
    have hm := padDigits_four_ne_minus y.natAbs '-' (by rw [← h]; simp)
    exact absurd rfl hm
  · simp only [hx, hy, if_true, if_false, List.singleton_append, List.nil_append] at h
    have hm := padDigits_four_ne_minus x.natAbs '-' (by rw [h]; simp)
    exact absurd rfl hm
  · simp only [hx, hy, if_false, List.nil_append] at h
    have := padDigits_four_inj _ _ h
    omega

/-- A month or day field has two digits. -/
theorem appendInt_two (x : Int) (h0 : 0 ≤ x) (h1 : x < 100) :
    appendInt x 2 = [Nat.digitChar (x.natAbs / 10), Nat.digitChar (x.natAbs % 10)] := by
  have hx : ¬ x < 0 := by omega
  have hu : x.natAbs < 100 := by omega
  simp [appendInt, padDigits, hx, hu]

theorem appendInt_two_inj (x y : Int) (hx0 : 0 ≤ x) (hx1 : x < 100) (hy0 : 0 ≤ y) (hy1 : y < 100)
    (h : appendInt x 2 = appendInt y 2) : x = y := by
  rw [appendInt_two x hx0 hx1, appendInt_two y hy0 hy1] at h
  simp only [List.cons.injEq, and_true] at h
  have a1 := digitChar_inj _ _ (by omega) (by omega) h.1
  have a2 := digitChar_inj _ _ (by omega) (by omega) h.2
  omega

/-- Dates with month and day in range are told apart by their text. -/
theorem formatDate_inj (a b : Date) (ham : 0 ≤ a.month ∧ a.month < 100)
    (had : 0 ≤ a.day ∧ a.day < 100) (hbm : 0 ≤ b.month ∧ b.month < 100)
    (hbd : 0 ≤ b.day ∧ b.day < 100) (h : formatDate a = formatDate b) : a = b := by
  have hl := congrArg String.data h
  simp only [formatDate] at hl
  have l2 : ∀ x : Int, 0 ≤ x → x < 100 → (appendInt x 2).length = 2 := by
    intro x h0 h1
    rw [appendInt_two x h0 h1]; rfl
  obtain ⟨h1, hd⟩ := List.append_inj' hl (by rw [l2 _ had.1 had.2, l2 _ hbd.1 hbd.2])
  obtain ⟨h2, -⟩ := List.append_inj' h1 rfl
  obtain ⟨h3, hm⟩ := List.append_inj' h2 (by rw [l2 _ ham.1 ham.2, l2 _ hbm.1 hbm.2])
  obtain ⟨hy, -⟩ := List.append_inj' h3 rfl
  have ey := appendInt_four_inj _ _ hy
  have em := appendInt_two_inj _ _ ham.1 ham.2 hbm.1 hbm.2 hm
  have ed := appendInt_two_inj _ _ had.1 had.2 hbd.1 hbd.2 hd
  cases a; cases b
  simp only [Date.mk.injEq]
  exact ⟨ey, em, ed⟩

/-- Clock readings on different local days have different date texts. -/
theorem Format_ne_of_localDay_ne (t₁ t₂ : Time) (h : t₁.localDay ≠ t₂.localDay) :
    t₁.Format ≠ t₂.Format := by
  intro hf
  unfold Time.Format Time.Date at hf
  obtain ⟨a1, a2, a3, a4⟩ := civilFromDays_range t₁.localDay
  obtain ⟨b1, b2, b3, b4⟩ := civilFromDays_range t₂.localDay
  have := formatDate_inj _ _ ⟨by omega, by omega⟩ ⟨by omega, by omega⟩ ⟨by omega, by omega⟩
    ⟨by omega, by omega⟩ hf
  exact h (civilFromDays_injective this)

/-! ## The token engine -/

theorem utf8Size_ascii (c : Char) (h : c.toNat < 128) : c.utf8Size = 1 := by
  have h1 : c.val.toNat < 128 := h
  have h2 : c.val ≤ 127 := by
    rw [UInt32.le_def]
    show c.val.toNat ≤ 127
    omega
  simp [Char.utf8Size, h2]

theorem utf8ByteSize_go (l : List Char) (h : ∀ c ∈ l, c.toNat < 128) :
    String.utf8ByteSize.go l = l.length := by
  induction l with
  | nil => rfl
  | cons c cs ih =>
    simp only [String.utf8ByteSize.go, utf8Size_ascii c (h c (by simp)), List.length_cons]
    rw [ih (fun c hc => h c (by simp [hc]))]

/-- Text of characters below 128 takes one byte per character. -/
theorem utf8ByteSize_ascii (l : List Char) (h : ∀ c ∈ l, c.toNat < 128) :
    (String.mk l).utf8ByteSize = l.length :=
  utf8ByteSize_go l h

theorem hextable_ascii : ∀ c ∈ hextable, c.toNat < 128 := by decide

/-- The expiry written by `CreateToken` lies after the clock reading. -/
theorem now_before_expiry (now : Time) : now.unixNano < (now.Add JWT_EXPIRATION).Unix * Second := by
  simp only [Time.Add, Time.Unix, JWT_EXPIRATION, Hour, Second]
  omega

/-- A token with the HS256 header, signed under the secret derived for its
own claims and the client IP, and whose claims are valid at `now`, parses to
its claims. -/
theorem ParseToken_of_signed (L : Lib) (now : Time) (ip : String) (s : Segments)
    (halg : s.alg = some "HS256")
    (hsig : s.sig = L.hmacSHA256 (GetJwtString L now ip s.claims.Email s.claims.UserID) s.text)
    (hval : Validate now s.claims = .ok ()) :
    ParseToken L now (.compact s) ip = .ok s.claims := by
  simp [ParseToken, ParseTokenTraced, ParseWithClaims, ParseUnverified, GetSigningMethod,
    keyFunc, Verify, halg, hsig, hval]

/-- On well-formed text, with the clock held at `now`, `CreateToken` returns
a token, and `ParseToken` on that token and the same client IP returns claims
whose UserID, Email and Role are the inputs, whose issuer is "files-receiver"
and whose expires-at is exactly 12 hours (43200 seconds) after issued-at. -/
theorem ParseToken_CreateToken (L : Lib) (now : Time) (ip uid email role : String) :
    ∃ tok claims, CreateToken L now ip uid email role = .ok tok ∧
      ParseToken L now tok ip = .ok claims ∧
      claims.UserID = uid ∧ claims.Email = email ∧ claims.Role = role ∧
      claims.Issuer = "files-receiver" ∧
      ∃ iat, claims.IssuedAt = some iat ∧ claims.ExpiresAt = some (iat + 12 * 3600) := by
  refine ⟨_, _, rfl, ParseToken_of_signed L now ip _ rfl rfl ?_, rfl, rfl, rfl, rfl,
    now.Unix, rfl, ?_⟩
  · have hexp := now_before_expiry now
    simp [Validate, NewNumericDate, hexp]
  · simp only [NewNumericDate, Time.Add, Time.Unix, JWT_EXPIRATION, Hour, Second, Option.some.injEq]
    omega

theorem ByteArr.eq_of_bytes {n : Nat} (a b : ByteArr n) (h : a.bytes = b.bytes) : a = b := by
  cases a; cases b; simp only [ByteArr.mk.injEq]; exact h

theorem String.append_right_cancel' (a b r : String) (h : a ++ r = b ++ r) : a = b := by
  have := congrArg String.data h
  simp only [String.data_append] at this
  exact String.ext (List.append_cancel_right this)

theorem String.append_left_cancel' (a r₁ r₂ : String) (h : a ++ r₁ = a ++ r₂) : r₁ = r₂ := by
  have := congrArg String.data h
  simp only [String.data_append] at this
  exact String.ext (List.append_cancel_left this)

/-- A token with the HS256 header whose signature is not the MAC of its text
under the secret derived at verification fails with a signature error. -/
theorem ParseToken_wrong_key (L : Lib) (now : Time) (ip : String) (s : Segments)
    (halg : s.alg = some "HS256")
    (hsig : L.hmacSHA256 (GetJwtString L now ip s.claims.Email s.claims.UserID) s.text ≠ s.sig) :
    ParseToken L now (.compact s) ip = .error .TokenSignatureInvalid := by
  simp [ParseToken, ParseTokenTraced, ParseWithClaims, ParseUnverified, GetSigningMethod,
    keyFunc, Verify, halg, hsig]

/-- Distinct texts under a collision-free digest give distinct secrets. -/
theorem secret_ne (L : Lib) (b₁ b₂ : String) (hb : b₂ ≠ b₁) (hsha : NoCollision L.sha256 b₂ b₁) :
    EncodeToString (L.sha256 b₂).bytes ≠ EncodeToString (L.sha256 b₁).bytes := by
  intro h
  exact hsha hb (ByteArr.eq_of_bytes _ _ (EncodeToString_injective h))

/-- C2: a token made by `CreateToken` for client IP `ip` is rejected with a
signature error by `ParseToken` for every other client IP `ip2`, the date and
the identity (email, uid) being the same, provided the digest does not
collide on the two secret texts and the MAC does not collide on the two
secrets: the key derived for `ip2` differs from the key used at issuance. -/
theorem ParseToken_other_ip (L : Lib) (t₁ t₂ : Time) (ip ip2 uid email role : String)
    (hip : ip2 ≠ ip) (hdate : t₂.Date = t₁.Date)
    (hsha : NoCollision L.sha256 (ip2 ++ "|" ++ email ++ "_" ++ uid ++ "^" ++ t₂.Format)
      (ip ++ "|" ++ email ++ "_" ++ uid ++ "^" ++ t₁.Format))
    (hmac : ∀ s, CreateToken L t₁ ip uid email role = .ok (.compact s) →
      NoCollision (fun key => L.hmacSHA256 key s.text)
        (GetJwtString L t₂ ip2 email uid) (GetJwtString L t₁ ip email uid)) :
    GetJwtString L t₂ ip2 email uid ≠ GetJwtString L t₁ ip email uid ∧
      ∃ tok, CreateToken L t₁ ip uid email role = .ok tok ∧
        ParseToken L t₂ tok ip2 = .error .TokenSignatureInvalid := by
  have hfmt : t₂.Format = t₁.Format := by simp only [Time.Format, hdate]
  have hbase : ip2 ++ "|" ++ email ++ "_" ++ uid ++ "^" ++ t₂.Format
      ≠ ip ++ "|" ++ email ++ "_" ++ uid ++ "^" ++ t₁.Format := by
    rw [hfmt]
    intro h
    simp only [String.append_assoc] at h
    exact hip (String.append_right_cancel' _ _ _ h)
  have hkey : GetJwtString L t₂ ip2 email uid ≠ GetJwtString L t₁ ip email uid :=
    secret_ne L _ _ hbase hsha
  refine ⟨hkey, _, rfl, ParseToken_wrong_key L t₂ ip2 _ rfl ?_⟩
  exact hmac _ rfl hkey

/-- C3: a token made by `CreateToken` on local calendar day D is rejected by
`ParseToken` for the same client IP on day D+1, under the same no-collision
provisos as C2, because the key is derived from the date of the verification
and not from the token's issued-at; this holds also when less than 12 hours
have passed (by a second or more), when the claims of the token themselves
are still valid. -/
theorem ParseToken_next_day (L : Lib) (t₁ t₂ : Time) (ip uid email role : String)
    (hday : t₂.localDay = t₁.localDay + 1)
    (hsha : NoCollision L.sha256 (ip ++ "|" ++ email ++ "_" ++ uid ++ "^" ++ t₂.Format)
      (ip ++ "|" ++ email ++ "_" ++ uid ++ "^" ++ t₁.Format))
    (hmac : ∀ s, CreateToken L t₁ ip uid email role = .ok (.compact s) →
      NoCollision (fun key => L.hmacSHA256 key s.text)
        (GetJwtString L t₂ ip email uid) (GetJwtString L t₁ ip email uid)) :
    ∃ s, CreateToken L t₁ ip uid email role = .ok (.compact s) ∧
      ParseToken L t₂ (.compact s) ip = .error .TokenSignatureInvalid ∧
      (t₂.unixNano + Second ≤ t₁.unixNano + 12 * Hour → Validate t₂ s.claims = .ok ()) := by
  have hfmt : t₂.Format ≠ t₁.Format := Format_ne_of_localDay_ne t₂ t₁ (by omega)
  have hbase : ip ++ "|" ++ email ++ "_" ++ uid ++ "^" ++ t₂.Format
      ≠ ip ++ "|" ++ email ++ "_" ++ uid ++ "^" ++ t₁.Format :=
    fun h => hfmt (String.append_left_cancel' _ _ _ h)
  have hkey : GetJwtString L t₂ ip email uid ≠ GetJwtString L t₁ ip email uid :=
    secret_ne L _ _ hbase hsha
  refine ⟨_, rfl, ParseToken_wrong_key L t₂ ip _ rfl (hmac _ rfl hkey), ?_⟩
  intro hlt
  have hexp : t₂.unixNano < (t₁.Add JWT_EXPIRATION).Unix * Second := by
    simp only [Time.Add, Time.Unix, JWT_EXPIRATION, Hour, Second] at hlt ⊢
    omega
  simp [Validate, NewNumericDate, hexp]

theorem ParseToken_other_ip_witness :
    GetJwtString toyLib ⟨1762293600 * Second, 0⟩ "5.6.7.8" "a@b.c" "u1"
        ≠ GetJwtString toyLib ⟨1762293600 * Second, 0⟩ "1.2.3.4" "a@b.c" "u1" ∧
      ∃ tok, CreateToken toyLib ⟨1762293600 * Second, 0⟩ "1.2.3.4" "u1" "a@b.c" "admin" = .ok tok ∧
        ParseToken toyLib ⟨1762293600 * Second, 0⟩ tok "5.6.7.8" = .error .TokenSignatureInvalid :=
  ParseToken_other_ip toyLib ⟨1762293600 * Second, 0⟩ ⟨1762293600 * Second, 0⟩
    "1.2.3.4" "5.6.7.8" "u1" "a@b.c" "admin" (by decide) rfl (fun _ => by decide)
    (fun s hs _ => by cases hs; decide)

theorem ParseToken_next_day_witness :
    (⟨1762293600 * Second, 0⟩ : Time).Format = "2025-11-04" ∧
      (⟨1762302600 * Second, 0⟩ : Time).Format = "2025-11-05" ∧
      ∃ s, CreateToken toyLib ⟨1762293600 * Second, 0⟩ "1.2.3.4" "u1" "a@b.c" "admin"
          = .ok (.compact s) ∧
        ParseToken toyLib ⟨1762302600 * Second, 0⟩ (.compact s) "1.2.3.4"
          = .error .TokenSignatureInvalid ∧
        Validate ⟨1762302600 * Second, 0⟩ s.claims = .ok () := by
  obtain ⟨s, h1, h2, h3⟩ := ParseToken_next_day toyLib ⟨1762293600 * Second, 0⟩
    ⟨1762302600 * Second, 0⟩ "1.2.3.4" "u1" "a@b.c" "admin" (by decide) (fun _ => by decide)
    (fun s hs _ => by cases hs; decide)
  exact ⟨by decide, by decide, s, h1, h2, h3 (by decide)⟩

/-- C4: when the signing method of a token is not HS256, `ParseToken`
returns an error and `GetJwtString` is not called: either the token has no
registered method and the parser fails before it asks for a key, or the key
function returns its error "unexpected signing method" without deriving the
secret, and `ParseToken` returns that error as the parser wraps it. -/
theorem ParseToken_not_HS256 (L : Lib) (now : Time) (ip : String) (tokenStr : TokenString)
    (h : ∀ token text, ParseUnverified tokenStr = .ok (token, text) → token.Method ≠ .HS256) :
    (∃ err, ParseToken L now tokenStr ip = .error err) ∧
      (ParseTokenTraced L now tokenStr ip).calls = [] ∧
      ∀ token text, ParseUnverified tokenStr = .ok (token, text) →
        keyFunc L now ip token = ⟨.error (.New "unexpected signing method"), []⟩ ∧
        ParseToken L now tokenStr ip = .error (.Keyfunc (.New "unexpected signing method")) := by
  cases hp : ParseUnverified tokenStr with
  | error e =>
    refine ⟨⟨e, ?_⟩, ?_, ?_⟩
    · simp [ParseToken, ParseTokenTraced, ParseWithClaims, hp]
    · simp [ParseTokenTraced, ParseWithClaims, hp]
    · intro token text ht; cases ht
  | ok r =>
    obtain ⟨token, text⟩ := r
    have hm := h token text hp
    have hk : keyFunc L now ip token = ⟨.error (.New "unexpected signing method"), []⟩ := by
      simp [keyFunc, hm]
    refine ⟨⟨.Keyfunc (.New "unexpected signing method"), ?_⟩, ?_, ?_⟩
    · simp [ParseToken, ParseTokenTraced, ParseWithClaims, hp, hk]
    · simp [ParseTokenTraced, ParseWithClaims, hp, hk]
    · intro token' text' ht
      cases ht
      exact ⟨hk, by simp [ParseToken, ParseTokenTraced, ParseWithClaims, hp, hk]⟩

theorem ParseToken_not_HS256_witness :
    (∃ err, ParseToken toyLib ⟨1762293600 * Second, 0⟩
        (.compact { text := "h.p", alg := some "none",
                    claims := { UserID := "u1", Email := "a@b.c", Role := "superadmin",
                                Issuer := "x", Subject := "", Audience := [], ExpiresAt := none,
                                NotBefore := none, IssuedAt := none, ID := "" },
                    sig := [] }) "1.2.3.4" = .error err) ∧
      (ParseTokenTraced toyLib ⟨1762293600 * Second, 0⟩
        (.compact { text := "h.p", alg := some "none",
                    claims := { UserID := "u1", Email := "a@b.c", Role := "superadmin",
                                Issuer := "x", Subject := "", Audience := [], ExpiresAt := none,
                                NotBefore := none, IssuedAt := none, ID := "" },
                    sig := [] }) "1.2.3.4").calls = [] :=
  have h := ParseToken_not_HS256 toyLib ⟨1762293600 * Second, 0⟩ "1.2.3.4"
    (.compact { text := "h.p", alg := some "none",
                claims := { UserID := "u1", Email := "a@b.c", Role := "superadmin",
                            Issuer := "x", Subject := "", Audience := [], ExpiresAt := none,
                            NotBefore := none, IssuedAt := none, ID := "" },
                sig := [] })
    (fun token text ht => by cases ht; decide)
  ⟨h.1, h.2.1⟩

/-- For a year of at most four digits the date text is `YYYY-MM-DD`, each
field zero-padded. -/
theorem formatDate_shape (d : Date) (hy0 : 0 ≤ d.year) (hy1 : d.year ≤ 9999)
    (hm : 0 ≤ d.month ∧ d.month < 100) (hd : 0 ≤ d.day ∧ d.day < 100) :
    formatDate d = String.mk
      [Nat.digitChar (d.year.natAbs / 1000), Nat.digitChar (d.year.natAbs / 100 % 10),
        Nat.digitChar (d.year.natAbs / 10 % 10), Nat.digitChar (d.year.natAbs % 10), '-',
        Nat.digitChar (d.month.natAbs / 10), Nat.digitChar (d.month.natAbs % 10), '-',
        Nat.digitChar (d.day.natAbs / 10), Nat.digitChar (d.day.natAbs % 10)] := by
  have hy : ¬ d.year < 0 := by omega
  have hu : d.year.natAbs < 10000 := by omega
  simp only [formatDate, appendInt_two _ hm.1 hm.2, appendInt_two _ hd.1 hd.2]
  simp [appendInt, padDigits, hy, hu]

/-- C5: `GetJwtString(ip, email, uid)` at a clock reading whose local date is
`d` is the hexadecimal encoding of the SHA-256 digest of
`ip|email_uid^` followed by `d` in the layout `YYYY-MM-DD`; it has 64
characters (and bytes), all lowercase hexadecimal digits; and it depends on
the clock through the date only. -/
theorem GetJwtString_spec (L : Lib) (now : Time) (ip email uid : String) :
    GetJwtString L now ip email uid
        = EncodeToString
            (L.sha256 (ip ++ "|" ++ email ++ "_" ++ uid ++ "^" ++ formatDate now.Date)).bytes ∧
      (GetJwtString L now ip email uid).length = 64 ∧
      (GetJwtString L now ip email uid).utf8ByteSize = 64 ∧
      (∀ c ∈ (GetJwtString L now ip email uid).data, c ∈ hextable) ∧
      (0 ≤ now.Date.year → now.Date.year ≤ 9999 →
        formatDate now.Date = String.mk
          [Nat.digitChar (now.Date.year.natAbs / 1000),
            Nat.digitChar (now.Date.year.natAbs / 100 % 10),
            Nat.digitChar (now.Date.year.natAbs / 10 % 10),
            Nat.digitChar (now.Date.year.natAbs % 10), '-',
            Nat.digitChar (now.Date.month.natAbs / 10),
            Nat.digitChar (now.Date.month.natAbs % 10), '-',
            Nat.digitChar (now.Date.day.natAbs / 10),
            Nat.digitChar (now.Date.day.natAbs % 10)]) ∧
      ∀ now2 : Time, now2.Date = now.Date →
        GetJwtString L now2 ip email uid = GetJwtString L now ip email uid := by
  have hlen : (hexEncode (L.sha256 (ip ++ "|" ++ email ++ "_" ++ uid ++ "^" ++ now.Format)).bytes).length
      = 64 := by
    rw [hexEncode_length, (L.sha256 _).size]
  refine ⟨rfl, ?_, ?_, ?_, ?_, ?_⟩
  · simpa [GetJwtString, EncodeToString, String.length] using hlen
  · simp only [GetJwtString, EncodeToString]
    rw [utf8ByteSize_ascii _ (fun c hc => hextable_ascii c (hexEncode_mem _ c hc))]
    exact hlen
  · intro c hc
    exact hexEncode_mem _ c hc
  · intro h0 h1
    obtain ⟨a1, a2, a3, a4⟩ := civilFromDays_range now.localDay
    exact formatDate_shape _ h0 h1 ⟨by unfold Time.Date; omega, by unfold Time.Date; omega⟩
      ⟨by unfold Time.Date; omega, by unfold Time.Date; omega⟩
  · intro now2 h2
    simp only [GetJwtString, Time.Format, h2]

/-! ## The gates -/

/-- C6: when the value of the Api-Key header is a key of the registry,
`ApiKeysRequired` does not abort (it leaves status, abort flag and errors as
they were) and sets `userUid` to the subject registered for the key, for
every client IP and with or without a session cookie. -/
theorem ApiKeysRequired_registered (cfg : GinServerConfig) (c : Context) (user : String)
    (h : cfg.ApiKeys (c.Header "Api-Key") = some user) :
    ApiKeysRequired cfg c = c.Set "userUid" (.str user) ∧
      (ApiKeysRequired cfg c).aborted = c.aborted ∧
      (ApiKeysRequired cfg c).status = c.status ∧
      (ApiKeysRequired cfg c).Errors = c.Errors ∧
      (ApiKeysRequired cfg c).Get "userUid" = some (.str user) ∧
      GetUserUidFromContext (ApiKeysRequired cfg c) = .returned (.ok user) := by
  have e : ApiKeysRequired cfg c = c.Set "userUid" (.str user) := by
    simp only [ApiKeysRequired, h]
  rw [e]
  exact ⟨rfl, rfl, rfl, rfl, by simp [Context.Set, Context.Get],
    by simp [GetUserUidFromContext, Context.Set, Context.Get]⟩

theorem ApiKeysRequired_registered_witness :
    (ApiKeysRequired (configWith (fun k => if k = "abc123" then some "u1" else none))
        (newContext "203.0.113.9" "abc123" none)).aborted = false ∧
      GetUserUidFromContext
        (ApiKeysRequired (configWith (fun k => if k = "abc123" then some "u1" else none))
          (newContext "203.0.113.9" "abc123" none)) = .returned (.ok "u1") :=
  have h := ApiKeysRequired_registered
    (configWith (fun k => if k = "abc123" then some "u1" else none))
    (newContext "203.0.113.9" "abc123" none) "u1" (by decide)
  ⟨h.2.1, h.2.2.2.2.2⟩

/-- C7 as stated fails for `ApiKeysRequired`: on a request from 127.0.0.1
with no API key and no cookie, with an empty registry, the gate does not
abort and sets `userUid` to "localhost", but it publishes no user record and
so no role: no key of the bag holds one. -/
theorem ApiKeysRequired_localhost_no_role :
    IsLocalhost (newContext "127.0.0.1" "" none).ClientIP = true ∧
      (newContext "127.0.0.1" "" none).Header "Api-Key" = "" ∧
      (newContext "127.0.0.1" "" none).Cookie JWT_COOKIE_NAME = none ∧
      (ApiKeysRequired (configWith (fun _ => none)) (newContext "127.0.0.1" "" none)).aborted
        = false ∧
      (ApiKeysRequired (configWith (fun _ => none)) (newContext "127.0.0.1" "" none)).Get "userUid"
        = some (.str "localhost") ∧
      (ApiKeysRequired (configWith (fun _ => none)) (newContext "127.0.0.1" "" none)).Get "user"
        = none ∧
      ¬ ∃ k u, (ApiKeysRequired (configWith (fun _ => none))
          (newContext "127.0.0.1" "" none)).Get k = some (.user u) := by
  refine ⟨by decide, by decide, by decide, by decide, by decide, by decide, ?_⟩
  rintro ⟨k, u, h⟩
  have hl : IsLocalhost "127.0.0.1" = true := by decide
  simp only [ApiKeysRequired, configWith, newContext, hl, if_true, Context.Set, Context.Get] at h
  split_ifs at h
  cases h

/-- C7, amended: on a request from a loopback address with no API key (the
empty header value not being a key of the registry) and no session cookie,
neither gate aborts and both set `userUid` to "localhost".  `ApiKeysRequired`
sets nothing else; `LoginOrLocalhost` also publishes the user record with
email "localhost@pointe.sk" and role "superadmin" and hands the context to
the downstream handlers. -/
theorem localhost_bypass (L : Lib) (now : Time) (downstream : Context → Context)
    (cfg : GinServerConfig) (c : Context)
    (hip : IsLocalhost c.ClientIP = true) (hkey : c.Header "Api-Key" = "")
    (hreg : cfg.ApiKeys "" = none) (_hcookie : c.Cookie JWT_COOKIE_NAME = none) :
    (ApiKeysRequired cfg c = c.Set "userUid" (.str "localhost") ∧
        (ApiKeysRequired cfg c).aborted = c.aborted ∧
        (ApiKeysRequired cfg c).status = c.status ∧
        GetUserUidFromContext (ApiKeysRequired cfg c) = .returned (.ok "localhost")) ∧
      ∃ c1 : Context, LoginOrLocalhost L now downstream c = downstream c1 ∧
        c1.aborted = c.aborted ∧ c1.status = c.status ∧
        c1.Get "userUid" = some (.str "localhost") ∧
        c1.Get "user" = some (.user { Email := "localhost@pointe.sk", Role := "superadmin" }) := by
  have e : ApiKeysRequired cfg c = c.Set "userUid" (.str "localhost") := by
    simp only [ApiKeysRequired, hkey, hreg, hip, if_true]
  refine ⟨⟨e, ?_, ?_, ?_⟩,
    (c.Set "userUid" (.str "localhost")).Set "user"
      (.user { Email := "localhost@pointe.sk", Role := "superadmin" }), ?_, rfl, rfl, ?_, ?_⟩
  · rw [e]; rfl
  · rw [e]; rfl
  · rw [e]; simp [GetUserUidFromContext, Context.Set, Context.Get]
  · simp only [LoginOrLocalhost, hip, if_true, Context.Next]
  · simp [Context.Set, Context.Get]
  · simp [Context.Set, Context.Get]

theorem localhost_bypass_witness :
    GetUserUidFromContext
        (ApiKeysRequired (configWith (fun _ => none)) (newContext "::1" "" none))
        = .returned (.ok "localhost") ∧
      ∃ c1 : Context, LoginOrLocalhost toyLib ⟨1762293600 * Second, 0⟩ id
          (newContext "::1" "" none) = c1 ∧
        c1.aborted = false ∧
        c1.Get "user" = some (.user { Email := "localhost@pointe.sk", Role := "superadmin" }) := by
  obtain ⟨⟨_, _, _, h4⟩, c1, h5, h6, _, _, h9⟩ := localhost_bypass toyLib
    ⟨1762293600 * Second, 0⟩ id (configWith (fun _ => none)) (newContext "::1" "" none)
    (by decide) (by decide) rfl (by decide)
  exact ⟨h4, c1, h5, h6, h9⟩

/-- C8: for a client IP that is not loopback, `LoginOrLocalhost` hands the
request to the downstream handlers exactly when the session cookie is
present and `ParseToken(cookie, clientIP)` succeeds, and then `userUid` and
the email and role of `user` are the UserID, Email and Role of the claims;
in every other case the result is the context aborted with status 403: the
downstream handlers are not run and the bag of keys is unchanged. -/
theorem LoginOrLocalhost_remote (L : Lib) (now : Time) (downstream : Context → Context)
    (c : Context) (hip : IsLocalhost c.ClientIP = false) :
    (∀ tok claims, c.Cookie JWT_COOKIE_NAME = some tok →
        ParseToken L now tok c.ClientIP = .ok claims →
        ∃ c1 : Context, LoginOrLocalhost L now downstream c = downstream c1 ∧
          c1.aborted = c.aborted ∧ c1.status = c.status ∧
          c1.Get "userUid" = some (.str claims.UserID) ∧
          c1.Get "user" = some (.user { Email := claims.Email, Role := claims.Role })) ∧
      ((¬ ∃ tok claims, c.Cookie JWT_COOKIE_NAME = some tok ∧
          ParseToken L now tok c.ClientIP = .ok claims) →
        LoginOrLocalhost L now downstream c = c.AbortWithStatus StatusForbidden ∧
          (LoginOrLocalhost L now downstream c).aborted = true ∧
          (LoginOrLocalhost L now downstream c).status = 403 ∧
          (LoginOrLocalhost L now downstream c).Keys = c.Keys) := by
  constructor
  · intro tok claims hc hp
    refine ⟨(c.Set "userUid" (.str claims.UserID)).Set "user"
      (.user { Email := claims.Email, Role := claims.Role }), ?_, rfl, rfl, ?_, ?_⟩
    · simp [LoginOrLocalhost, hip, hc, hp, Context.Next]
    · simp [Context.Set, Context.Get]
    · simp [Context.Set, Context.Get]
  · intro hno
    have e : LoginOrLocalhost L now downstream c = c.AbortWithStatus StatusForbidden := by
      simp only [LoginOrLocalhost, hip, Bool.false_eq_true, if_false]
      cases hc : c.Cookie JWT_COOKIE_NAME with
      | none => rfl
      | some tok =>
        cases hp : ParseToken L now tok c.ClientIP with
        | error e => simp only [hp]
        | ok claims => exact absurd ⟨tok, claims, hc, hp⟩ hno
    rw [e]
    exact ⟨rfl, rfl, rfl, rfl⟩

theorem LoginOrLocalhost_remote_witness :
    IsLocalhost "203.0.113.9" = false ∧
      LoginOrLocalhost toyLib ⟨1762293600 * Second, 0⟩ id (newContext "203.0.113.9" "" none)
        = (newContext "203.0.113.9" "" none).AbortWithStatus StatusForbidden ∧
      (LoginOrLocalhost toyLib ⟨1762293600 * Second, 0⟩ id
        (newContext "203.0.113.9" "" none)).status = 403 ∧
      ∃ c1 : Context, LoginOrLocalhost toyLib ⟨1762293600 * Second, 0⟩ id
          (newContext "203.0.113.9" "" (some sampleToken)) = c1 ∧
        c1.aborted = false ∧ c1.Get "userUid" = some (.str "u1") ∧
        c1.Get "user" = some (.user { Email := "a@b.c", Role := "admin" }) := by
  have hnone : (newContext "203.0.113.9" "" none).Cookie JWT_COOKIE_NAME = none := by decide
  have h := (LoginOrLocalhost_remote toyLib ⟨1762293600 * Second, 0⟩ id
    (newContext "203.0.113.9" "" none) (by decide)).2
    (by rintro ⟨tok, claims, hc, -⟩; rw [hnone] at hc; cases hc)
  obtain ⟨c1, h1, h2, -, h4, h5⟩ := (LoginOrLocalhost_remote toyLib ⟨1762293600 * Second, 0⟩ id
    (newContext "203.0.113.9" "" (some sampleToken)) (by decide)).1 sampleToken
    { UserID := "u1", Email := "a@b.c", Role := "admin", Issuer := JWT_ISSUER, Subject := "",
      Audience := [], ExpiresAt := some (1762293600 + 43200), NotBefore := none,
      IssuedAt := some 1762293600, ID := "" } (by decide) (by decide)
  exact ⟨by decide, h.1, h.2.2.1, c1, h1, h2, h4, h5⟩

/-- C9: when the client IP is not loopback and the value of the Api-Key
header (empty when the header is absent) is not a key of the registry,
`ApiKeysRequired` aborts the request with status 401 (Unauthorized) and the
error "Invalid Api-Key" and leaves the bag of keys as it was, so that on a
request whose bag held no `userUid` before, `GetUserUidFromContext` returns
the error "User Not Found". -/
theorem ApiKeysRequired_unregistered (cfg : GinServerConfig) (c : Context)
    (hip : IsLocalhost c.ClientIP = false) (hreg : cfg.ApiKeys (c.Header "Api-Key") = none) :
    ApiKeysRequired cfg c = c.AbortWithError StatusUnauthorized (.New "Invalid Api-Key") ∧
      (ApiKeysRequired cfg c).aborted = true ∧
      (ApiKeysRequired cfg c).status = 401 ∧
      (ApiKeysRequired cfg c).Keys = c.Keys ∧
      (c.Get "userUid" = none →
        GetUserUidFromContext (ApiKeysRequired cfg c)
          = .returned (.error (.New "User Not Found"))) := by
  have e : ApiKeysRequired cfg c
      = c.AbortWithError StatusUnauthorized (.New "Invalid Api-Key") := by
    simp only [ApiKeysRequired, hreg, hip, Bool.false_eq_true, if_false]
  rw [e]
  refine ⟨rfl, rfl, rfl, rfl, ?_⟩
  intro hnone
  have hk : c.Keys "userUid" = none := hnone
  simp [GetUserUidFromContext, Context.Get, Context.AbortWithError, Context.AbortWithStatus, hk]

theorem ApiKeysRequired_unregistered_witness :
    (ApiKeysRequired (configWith (fun k => if k = "abc123" then some "u1" else none))
        (newContext "203.0.113.9" "" none)).status = 401 ∧
      GetUserUidFromContext
        (ApiKeysRequired (configWith (fun k => if k = "abc123" then some "u1" else none))
          (newContext "203.0.113.9" "" none)) = .returned (.error (.New "User Not Found")) :=
  have h := ApiKeysRequired_unregistered
    (configWith (fun k => if k = "abc123" then some "u1" else none))
    (newContext "203.0.113.9" "" none) (by decide) (by decide)
  ⟨h.2.2.1, h.2.2.2.2 (by decide)⟩

/-! ## Identifier coercion -/

theorem fromHexChar_ascii (c : Char) (h : (fromHexChar c).isSome = true) : c.toNat < 128 := by
  unfold fromHexChar at h
  have e0 : '0'.toNat = 48 := rfl
  have e9 : '9'.toNat = 57 := rfl
  have ea : 'a'.toNat = 97 := rfl
  have ef : 'f'.toNat = 102 := rfl
  have eA : 'A'.toNat = 65 := rfl
  have eF : 'F'.toNat = 70 := rfl
  rw [e0, e9, ea, ef, eA, eF] at h
  split_ifs at h with h1 h2 h3
  · omega
  · omega
  · omega
  · simp at h

theorem hexDecode_of_hex : ∀ (l : List Char) (k : Nat), l.length = 2 * k →
    (∀ c ∈ l, (fromHexChar c).isSome = true) → ∃ bs, hexDecode l = some bs ∧ bs.length = k
  | [], k, hl, _ => ⟨[], rfl, by simp at hl ⊢; omega⟩
  | [_], k, hl, _ => by simp at hl; omega
  | a :: b :: rest, k, hl, h => by
    obtain ⟨x, hx⟩ := Option.isSome_iff_exists.mp (h a (by simp))
    obtain ⟨y, hy⟩ := Option.isSome_iff_exists.mp (h b (by simp))
    obtain ⟨bs, hbs, hlen⟩ := hexDecode_of_hex rest (k - 1) (by simp at hl; omega)
      (fun c hc => h c (by simp [hc]))
    refine ⟨Fin.ofNat (x * 16 + y) :: bs, by simp [hexDecode, hx, hy, hbs], ?_⟩
    simp only [List.length_cons, hlen]
    simp at hl
    omega

theorem hex_of_hexDecode : ∀ (l : List Char) (bs : List Byte), hexDecode l = some bs →
    (∀ c ∈ l, (fromHexChar c).isSome = true) ∧ l.length = 2 * bs.length
  | [], bs, h => by
    simp only [hexDecode, Option.some.injEq] at h
    subst h
    simp
  | [_], bs, h => by simp [hexDecode] at h
  | a :: b :: rest, bs, h => by
    simp only [hexDecode] at h
    cases hx : fromHexChar a with
    | none => simp [hx] at h
    | some x =>
      cases hy : fromHexChar b with
      | none => simp [hx, hy] at h
      | some y =>
        cases hr : hexDecode rest with
        | none => simp [hx, hy, hr] at h
        | some bs' =>
          simp only [hx, hy, hr, Option.some.injEq] at h
          subst h
          obtain ⟨h1, h2⟩ := hex_of_hexDecode rest bs' hr
          refine ⟨?_, by simp only [List.length_cons, h2]; omega⟩
          intro c hc
          simp only [List.mem_cons] at hc
          rcases hc with rfl | rfl | hc
          · simp [hx]
          · simp [hy]
          · exact h1 c hc

theorem hexEncode_isHex (bs : List Byte) : ∀ c ∈ hexEncode bs, (fromHexChar c).isSome = true := by
  induction bs with
  | nil => intro c hc; simp [hexEncode] at hc
  | cons v rest ih =>
    intro c hc
    simp only [hexEncode, List.mem_cons] at hc
    rcases hc with h | h | h
    · rw [h, fromHexChar_hexChar _ (by omega)]; rfl
    · rw [h, fromHexChar_hexChar _ (by omega)]; rfl
    · exact ih c h

theorem hexEncode_take : ∀ (bs : List Byte) (k : Nat),
    (hexEncode bs).take (2 * k) = hexEncode (bs.take k)
  | [], k => by simp [hexEncode]
  | _ :: _, 0 => by simp [hexEncode]
  | v :: rest, k + 1 => by
    have e : 2 * (k + 1) = (2 * k + 1) + 1 := by omega
    rw [e]
    simp only [hexEncode, List.take_succ_cons]
    rw [hexEncode_take rest k]

/-- The parse `ObjectIDFromHex` succeeds on a well-formed identifier text, and on
nothing else. -/
theorem ObjectIDFromHex_ok_iff (s : String) (oid : ObjectID) :
    ObjectIDFromHex s = .ok oid ↔ IsObjectIDHex s ∧ hexDecode s.data = some oid := by
  unfold ObjectIDFromHex IsObjectIDHex
  constructor
  · intro h
    split_ifs at h with hs
    cases hd : hexDecode s.data with
    | none => simp [hd] at h
    | some o =>
      simp only [hd, Except.ok.injEq] at h
      subst h
      obtain ⟨h1, h2⟩ := hex_of_hexDecode _ _ hd
      have hb : s.utf8ByteSize = s.data.length :=
        utf8ByteSize_ascii s.data (fun c hc => fromHexChar_ascii c (h1 c hc))
      have hs' : s.utf8ByteSize = 24 := by simpa using hs
      exact ⟨⟨by rw [String.length]; omega, h1⟩, rfl⟩
  · rintro ⟨⟨hl, hh⟩, hd⟩
    have hb : s.utf8ByteSize = s.data.length :=
      utf8ByteSize_ascii s.data (fun c hc => fromHexChar_ascii c (hh c hc))
    have hl' : s.data.length = 24 := hl
    have hs : ¬ s.utf8ByteSize ≠ 24 := by omega
    simp [hs, hd]

theorem utf8ByteSize_of_IsObjectIDHex (s : String) (h : IsObjectIDHex s) :
    s.utf8ByteSize = 24 := by
  have hb : s.utf8ByteSize = s.data.length :=
    utf8ByteSize_ascii s.data (fun c hc => fromHexChar_ascii c (h.2 c hc))
  have hl : s.data.length = 24 := h.1
  omega

/-- On a well-formed identifier text the result is what the text decodes to. -/
theorem StringToObjectID_direct (L : Lib) (s : String) (oid : ObjectID)
    (h : IsObjectIDHex s) (hd : hexDecode s.data = some oid) : StringToObjectID L s = oid := by
  have h24 := utf8ByteSize_of_IsObjectIDHex s h
  have hok : ObjectIDFromHex s = .ok oid := (ObjectIDFromHex_ok_iff s oid).mpr ⟨h, hd⟩
  simp [StringToObjectID, h24, hok]

/-- The hexadecimal form of twelve bytes is a well-formed identifier text. -/
theorem IsObjectIDHex_Hex (r : List Byte) (hr : r.length = 12) :
    IsObjectIDHex (String.mk (hexEncode r)) := by
  refine ⟨?_, fun c hc => hexEncode_isHex r c hc⟩
  show (hexEncode r).length = 24
  rw [hexEncode_length, hr]

/-- On every other text the result is the first 12 bytes of the MD5 digest. -/
theorem StringToObjectID_fallback (L : Lib) (s : String) (h : ¬ IsObjectIDHex s) :
    StringToObjectID L s = (L.md5 s).bytes.take 12 := by
  have hdirect : (if s.utf8ByteSize = 24 then
      (match ObjectIDFromHex s with
        | .ok objectID => some objectID
        | .error _ => none)
      else none) = none := by
    split_ifs with h24
    · cases hp : ObjectIDFromHex s with
      | error e => rfl
      | ok oid => exact absurd ((ObjectIDFromHex_ok_iff s oid).mp hp).1 h
    · rfl
  have htake : (EncodeToString (L.md5 s).bytes).data.take 24
      = hexEncode ((L.md5 s).bytes.take 12) := by
    show (hexEncode (L.md5 s).bytes).take (2 * 12) = _
    exact hexEncode_take _ 12
  have hlen : ((L.md5 s).bytes.take 12).length = 12 := by
    rw [List.length_take, (L.md5 s).size]; rfl
  have hok : ObjectIDFromHex (String.mk ((EncodeToString (L.md5 s).bytes).data.take 24))
      = .ok ((L.md5 s).bytes.take 12) := by
    rw [htake]
    exact (ObjectIDFromHex_ok_iff _ _).mpr ⟨IsObjectIDHex_Hex _ hlen, hexDecode_hexEncode _⟩
  unfold StringToObjectID
  simp only [hdirect, hok]

/-- C10: `StringToObjectID` is a total function that always yields 12 bytes:
on a well-formed identifier text (24 hexadecimal digits) exactly the bytes
that the text decodes to, on every other string the first 12 bytes of the
MD5 digest of the string (the second parse does not fail); hence it is
idempotent through the hexadecimal form:
`StringToObjectID(hex(StringToObjectID(s))) = StringToObjectID(s)`. -/
theorem StringToObjectID_spec (L : Lib) (s : String) :
    (StringToObjectID L s).length = 12 ∧
      (IsObjectIDHex s → hexDecode s.data = some (StringToObjectID L s)) ∧
      (¬ IsObjectIDHex s → StringToObjectID L s = (L.md5 s).bytes.take 12) ∧
      StringToObjectID L (StringToObjectID L s).Hex = StringToObjectID L s := by
  have hlen : (StringToObjectID L s).length = 12 := by
    by_cases h : IsObjectIDHex s
    · obtain ⟨oid, hd, hl⟩ := hexDecode_of_hex s.data 12 h.1 h.2
      rw [StringToObjectID_direct L s oid h hd, hl]
    · rw [StringToObjectID_fallback L s h, List.length_take, (L.md5 s).size]; rfl
  refine ⟨hlen, ?_, StringToObjectID_fallback L s, ?_⟩
  · intro h
    obtain ⟨oid, hd, -⟩ := hexDecode_of_hex s.data 12 h.1 h.2
    rw [StringToObjectID_direct L s oid h hd, hd]
  · exact StringToObjectID_direct L _ _ (IsObjectIDHex_Hex _ hlen) (hexDecode_hexEncode _)

/-! ## The date of the secret -/

/-- C14 as stated fails: on a server one hour east of UTC, the clock
readings 2025-11-04 22:00 UTC and 2025-11-04 23:30 UTC have the same UTC date
but the date texts "2025-11-04" and "2025-11-05", so the secrets differ
for every digest that does not collide on the two texts (and for the
stand-in library), and a token made at the first reading is rejected at the
second, before the UTC date rolls over. -/
theorem GetJwtString_not_utc_date :
    (⟨1762293600 * Second, 3600⟩ : Time).UTC.Date = (⟨1762299000 * Second, 3600⟩ : Time).UTC.Date ∧
      (⟨1762293600 * Second, 3600⟩ : Time).Format = "2025-11-04" ∧
      (⟨1762299000 * Second, 3600⟩ : Time).Format = "2025-11-05" ∧
      (∀ (L : Lib) (ip email uid : String),
        NoCollision L.sha256 (ip ++ "|" ++ email ++ "_" ++ uid ++ "^" ++ "2025-11-05")
          (ip ++ "|" ++ email ++ "_" ++ uid ++ "^" ++ "2025-11-04") →
        GetJwtString L ⟨1762299000 * Second, 3600⟩ ip email uid
          ≠ GetJwtString L ⟨1762293600 * Second, 3600⟩ ip email uid) ∧
      GetJwtString toyLib ⟨1762299000 * Second, 3600⟩ "1.2.3.4" "a@b.c" "u1"
        ≠ GetJwtString toyLib ⟨1762293600 * Second, 3600⟩ "1.2.3.4" "a@b.c" "u1" ∧
      ∃ tok, CreateToken toyLib ⟨1762293600 * Second, 3600⟩ "1.2.3.4" "u1" "a@b.c" "admin"
          = .ok tok ∧
        ParseToken toyLib ⟨1762299000 * Second, 3600⟩ tok "1.2.3.4"
          = .error .TokenSignatureInvalid := by
  have h1 : (⟨1762293600 * Second, 3600⟩ : Time).Format = "2025-11-04" := by decide
  have h2 : (⟨1762299000 * Second, 3600⟩ : Time).Format = "2025-11-05" := by decide
  refine ⟨by decide, h1, h2, ?_, by decide, _, rfl, by decide⟩
  intro L ip email uid hsha
  have hb : ip ++ "|" ++ email ++ "_" ++ uid ++ "^" ++ "2025-11-05"
      ≠ ip ++ "|" ++ email ++ "_" ++ uid ++ "^" ++ "2025-11-04" := by
    intro h
    exact absurd (String.append_left_cancel' _ _ _ h) (by decide)
  have := secret_ne L _ _ hb hsha
  simpa only [GetJwtString, h1, h2] using this

/-- C14, amended: the date component of the secret is the calendar date of
the current instant in the server's local zone, which is the UTC date when
the zone offset is zero.  Two clock readings with the same local date yield
the same secret; a token made at `t₁` still verifies at every reading `t₂`
of the same local date before its expiry, and is rejected with a signature
error at every reading of another local day (the digest and the MAC not
colliding on the two secret texts and secrets). -/
theorem GetJwtString_local_date (L : Lib) (t₁ t₂ : Time) (ip uid email role : String) :
    (t₂.Date = t₁.Date → GetJwtString L t₂ ip email uid = GetJwtString L t₁ ip email uid) ∧
      (t₁.zoneOffset = 0 → t₁.Date = t₁.UTC.Date) ∧
      ∃ s, CreateToken L t₁ ip uid email role = .ok (.compact s) ∧
        (t₂.Date = t₁.Date → t₂.unixNano < (t₁.Unix + 43200) * Second →
          ParseToken L t₂ (.compact s) ip = .ok s.claims) ∧
        (t₂.localDay ≠ t₁.localDay →
          NoCollision L.sha256 (ip ++ "|" ++ email ++ "_" ++ uid ++ "^" ++ t₂.Format)
            (ip ++ "|" ++ email ++ "_" ++ uid ++ "^" ++ t₁.Format) →
          NoCollision (fun key => L.hmacSHA256 key s.text)
            (GetJwtString L t₂ ip email uid) (GetJwtString L t₁ ip email uid) →
          ParseToken L t₂ (.compact s) ip = .error .TokenSignatureInvalid) := by
  have hsame : t₂.Date = t₁.Date →
      GetJwtString L t₂ ip email uid = GetJwtString L t₁ ip email uid := by
    intro h
    simp only [GetJwtString, Time.Format, h]
  refine ⟨hsame, ?_, _, rfl, ?_, ?_⟩
  · intro h0
    cases t₁
    simp only at h0
    subst h0
    rfl
  · intro hd hexp
    refine ParseToken_of_signed L t₂ ip _ rfl ?_ ?_
    · show L.hmacSHA256 (GetJwtString L t₁ ip email uid) _
        = L.hmacSHA256 (GetJwtString L t₂ ip email uid) _
      rw [hsame hd]
    · have hexp' : t₂.unixNano < (t₁.Add JWT_EXPIRATION).Unix * Second := by
        simp only [Time.Add, Time.Unix, JWT_EXPIRATION, Hour, Second] at hexp ⊢
        omega
      simp [Validate, NewNumericDate, hexp']
  · intro hday hsha hmac
    have hfmt : t₂.Format ≠ t₁.Format := Format_ne_of_localDay_ne t₂ t₁ hday
    have hbase : ip ++ "|" ++ email ++ "_" ++ uid ++ "^" ++ t₂.Format
        ≠ ip ++ "|" ++ email ++ "_" ++ uid ++ "^" ++ t₁.Format :=
      fun h => hfmt (String.append_left_cancel' _ _ _ h)
    exact ParseToken_wrong_key L t₂ ip _ rfl (hmac (secret_ne L _ _ hbase hsha))

theorem GetJwtString_local_date_witness :
    (⟨1762299000 * Second, -3600⟩ : Time).UTC.Format = "2025-11-04" ∧
      (⟨1762302600 * Second, -3600⟩ : Time).UTC.Format = "2025-11-05" ∧
      (⟨1762299000 * Second, -3600⟩ : Time).Format = "2025-11-04" ∧
      (⟨1762302600 * Second, -3600⟩ : Time).Format = "2025-11-04" ∧
      ∃ s, CreateToken toyLib ⟨1762299000 * Second, -3600⟩ "1.2.3.4" "u1" "a@b.c" "admin"
          = .ok (.compact s) ∧
        ParseToken toyLib ⟨1762302600 * Second, -3600⟩ (.compact s) "1.2.3.4" = .ok s.claims := by
  obtain ⟨-, -, s, h1, h2, -⟩ := GetJwtString_local_date toyLib ⟨1762299000 * Second, -3600⟩
    ⟨1762302600 * Second, -3600⟩ "1.2.3.4" "u1" "a@b.c" "admin"
  exact ⟨by decide, by decide, by decide, by decide, s, h1, h2 (by decide) (by decide)⟩

/-! ## The repository -/

theorem DbErr.Is_Errorf_ErrNoDocuments (msg : String) (err : DbErr) :
    (DbErr.Errorf msg err).Is .ErrNoDocuments = err.Is .ErrNoDocuments := by
  simp [DbErr.Is]

/-- C11: `Repository.FindOne` returns the absent result `(nil, nil)` exactly
when the store's error is (or wraps) `mongo.ErrNoDocuments`; for every other
error of the store or of the decoding it returns that error wrapped; and it
returns the decoded entity when there is no error.  An error that it
returns is never the no-documents error.  `FindByID` is `FindOne` on the
filter `{"_id": id}`. -/
theorem Repository_FindOne_absent {S T : Type} (D : Driver S T) (st : S) (filter : M) :
    (Repository.FindOne D st filter = .ok none ↔
        ∃ err, D.FindOne st filter = .error err ∧ err.Is .ErrNoDocuments = true) ∧
      (∀ err, D.FindOne st filter = .error err → err.Is .ErrNoDocuments = false →
        Repository.FindOne D st filter = .error (.Errorf "failed to find document" err)) ∧
      (∀ entity, D.FindOne st filter = .ok entity →
        Repository.FindOne D st filter = .ok (some entity)) ∧
      (∀ err, Repository.FindOne D st filter = .error err → err.Is .ErrNoDocuments = false) ∧
      ∀ id, Repository.FindByID D st id
        = Repository.FindOne D st (M.empty.set "_id" (.oid id)) := by
  have key : Repository.FindOne D st filter =
      match D.FindOne st filter with
      | .error err =>
        if err.Is .ErrNoDocuments then .ok none
        else .error (.Errorf "failed to find document" err)
      | .ok entity => .ok (some entity) := rfl
  refine ⟨?_, ?_, ?_, ?_, fun _ => rfl⟩
  · rw [key]
    cases h : D.FindOne st filter with
    | error err =>
      cases hi : err.Is .ErrNoDocuments with
      | true => simp [hi]
      | false => simp [hi]
    | ok entity => simp
  · intro err he hi
    rw [key, he]
    simp [hi]
  · intro entity he
    rw [key, he]
  · intro err he
    rw [key] at he
    cases h : D.FindOne st filter with
    | error err0 =>
      rw [h] at he
      cases hi : err0.Is .ErrNoDocuments with
      | true => simp [hi] at he
      | false =>
        simp only [hi, Bool.false_eq_true, if_false, Except.error.injEq] at he
        rw [← he, DbErr.Is_Errorf_ErrNoDocuments, hi]
    | ok entity =>
      rw [h] at he
      cases he

theorem Repository_FindOne_absent_witness :
    Repository.FindOne (memDriver noteSchema) { docs := [], inserts := 0 }
        (M.empty.set "text" (.str "hello")) = .ok none ∧
      Repository.FindOne (failingDriver Note (.Driver "server selection timeout")) ()
        (M.empty.set "text" (.str "hello"))
        = .error (.Errorf "failed to find document" (.Driver "server selection timeout")) :=
  have h := Repository_FindOne_absent (memDriver noteSchema) { docs := [], inserts := 0 }
    (M.empty.set "text" (.str "hello"))
  have g := Repository_FindOne_absent (failingDriver Note (.Driver "server selection timeout")) ()
    (M.empty.set "text" (.str "hello"))
  ⟨h.1.mpr ⟨.ErrNoDocuments, rfl, rfl⟩, g.2.1 _ rfl rfl⟩

/-- C13: `First` sets the limit option to 1, whatever it was, and leaves the
filter and the other options as they were; it runs `FindMany` with the
accumulated filter and these options and returns the first entity of a
non-empty result, the absent result `(nil, nil)` for an empty result, and the
error of `FindMany` unchanged when `FindMany` fails. -/
theorem QueryBuilder_First_spec {S T : Type} (D : Driver S T) (st : S) (qb : QueryBuilder) :
    (QueryBuilder.First D st qb).2.opts.Limit = some 1 ∧
      (QueryBuilder.First D st qb).2.opts.Skip = qb.opts.Skip ∧
      (QueryBuilder.First D st qb).2.opts.SortBy = qb.opts.SortBy ∧
      (QueryBuilder.First D st qb).2.filter = qb.filter ∧
      (∀ err, Repository.FindMany D st qb.filter (qb.opts.SetLimit 1) = .error err →
        (QueryBuilder.First D st qb).1 = .error err) ∧
      (Repository.FindMany D st qb.filter (qb.opts.SetLimit 1) = .ok [] →
        (QueryBuilder.First D st qb).1 = .ok none) ∧
      (∀ first rest, Repository.FindMany D st qb.filter (qb.opts.SetLimit 1)
          = .ok (first :: rest) →
        (QueryBuilder.First D st qb).1 = .ok (some first)) := by
  have key : QueryBuilder.First D st qb =
      match Repository.FindMany D st qb.filter (qb.opts.SetLimit 1) with
      | .error err => (.error err, { qb with opts := qb.opts.SetLimit 1 })
      | .ok [] => (.ok none, { qb with opts := qb.opts.SetLimit 1 })
      | .ok (first :: _) => (.ok (some first), { qb with opts := qb.opts.SetLimit 1 }) := rfl
  have hqb : (QueryBuilder.First D st qb).2 = { qb with opts := qb.opts.SetLimit 1 } := by
    rw [key]
    cases Repository.FindMany D st qb.filter (qb.opts.SetLimit 1) with
    | error err => rfl
    | ok l => cases l <;> rfl
  refine ⟨by rw [hqb]; rfl, by rw [hqb]; rfl, by rw [hqb]; rfl, by rw [hqb], ?_, ?_, ?_⟩
  · intro err h
    rw [key, h]
  · intro h
    rw [key, h]
  · intro first rest h
    rw [key, h]

theorem QueryBuilder_First_spec_witness :
    (QueryBuilder.First (memDriver noteSchema)
        { docs := [⟨.oid NilObjectID, ⟨none, "a"⟩⟩, ⟨.str "k", ⟨some "k", "b"⟩⟩], inserts := 2 }
        (NewQueryBuilder.Limit 5)).1 = .ok (some ⟨some "000000000000000000000000", "a"⟩) ∧
      (QueryBuilder.First (memDriver noteSchema) { docs := [], inserts := 0 }
        (NewQueryBuilder.Limit 5)).1 = .ok none ∧
      (QueryBuilder.First (failingDriver Note (.Driver "timeout")) ()
        (NewQueryBuilder.Limit 5)).1 = .error (.Errorf "failed to find documents" (.Driver "timeout")) ∧
      (QueryBuilder.First (memDriver noteSchema) { docs := [], inserts := 0 }
        (NewQueryBuilder.Limit 5)).2.opts.Limit = some 1 :=
  ⟨(QueryBuilder_First_spec (memDriver noteSchema)
      { docs := [⟨.oid NilObjectID, ⟨none, "a"⟩⟩, ⟨.str "k", ⟨some "k", "b"⟩⟩], inserts := 2 }
      (NewQueryBuilder.Limit 5)).2.2.2.2.2.2 ⟨some "000000000000000000000000", "a"⟩ [] (by decide),
    (QueryBuilder_First_spec (memDriver noteSchema) { docs := [], inserts := 0 }
      (NewQueryBuilder.Limit 5)).2.2.2.2.2.1 rfl,
    (QueryBuilder_First_spec (failingDriver Note (.Driver "timeout")) ()
      (NewQueryBuilder.Limit 5)).2.2.2.2.1 _ rfl,
    (QueryBuilder_First_spec (memDriver noteSchema) { docs := [], inserts := 0 }
      (NewQueryBuilder.Limit 5)).1⟩

/-- C12 as stated fails: a note that carries the string "k1" as its own
identifier is inserted into the empty collection; `InsertOne` succeeds, the
inserted identifier is no ObjectID, so the nil ObjectID is returned without
an error, and `FindByID` on it returns the absent result although the
document is stored. -/
theorem InsertOne_FindByID_absent :
    (Repository.InsertOne (memDriver noteSchema) { docs := [], inserts := 0 }
        ⟨some "k1", "hello"⟩).1 = .ok NilObjectID ∧
      Repository.FindByID (memDriver noteSchema)
        (Repository.InsertOne (memDriver noteSchema) { docs := [], inserts := 0 }
          ⟨some "k1", "hello"⟩).2 NilObjectID = .ok none ∧
      Repository.FindOne (memDriver noteSchema)
        (Repository.InsertOne (memDriver noteSchema) { docs := [], inserts := 0 }
          ⟨some "k1", "hello"⟩).2 (M.empty.set "_id" (.str "k1"))
        = .ok (some ⟨some "k1", "hello"⟩) := by
  refine ⟨by decide, by decide, by decide⟩

theorem sameScalar_oid (o : ObjectID) (b : Bson) :
    (Bson.oid o).sameScalar b = true ↔ b = .oid o := by
  cases b <;> simp [Bson.sameScalar, eq_comm]

/-- C12, amended: over the in-memory model of the document store, for every
entity `e` that has no identifier of its own or has an ObjectID as its
identifier, if `InsertOne(e)` succeeds and returns `id`, then `FindByID(id)`
on the store after the insert returns an entity, not the absent result, and
that entity is `e` with its identifier field set to `id`: it is equal to `e`
when the identifier field is ignored.  (For an entity with an identifier of
another type `InsertOne` returns the nil ObjectID, which does not identify
the document.) -/
theorem InsertOne_FindByID {T : Type} (σ : Schema T) (st st1 : Mem T) (e : T) (id : ObjectID)
    (hid : σ.idOf e = none ∨ ∃ o, σ.idOf e = some (.oid o))
    (hins : Repository.InsertOne (memDriver σ) st e = (.ok id, st1)) :
    ∃ found, Repository.FindByID (memDriver σ) st1 id = .ok (some found) ∧
      found = σ.setID (.oid id) e ∧ σ.withoutID found = σ.withoutID e := by
  obtain ⟨o, ho⟩ : ∃ o, (σ.idOf e).getD (.oid (σ.newID st.inserts)) = .oid o := by
    rcases hid with h | ⟨o, h⟩
    · exact ⟨_, by rw [h]; rfl⟩
    · exact ⟨o, by rw [h]; rfl⟩
  simp only [Repository.InsertOne, memDriver, ho] at hins
  by_cases hdup : st.docs.any (fun d => (Bson.oid o).sameScalar d.id) = true
  · simp [hdup] at hins
  · simp only [hdup, Bool.false_eq_true, if_false, Prod.mk.injEq, Except.ok.injEq] at hins
    obtain ⟨rfl, rfl⟩ := hins
    have hold : List.find? (Mem.matches σ (M.empty.set "_id" (.oid o))) st.docs = none := by
      rw [List.find?_eq_none]
      intro d hd hm
      apply hdup
      rw [List.any_eq_true]
      refine ⟨d, hd, ?_⟩
      simpa [Mem.matches, M.set, M.empty] using hm
    have hnew : Mem.matches σ (M.empty.set "_id" (.oid o)) { id := .oid o, body := e } = true := by
      simp [Mem.matches, M.set, M.empty, Bson.sameScalar]
    refine ⟨σ.setID (.oid o) e, ?_, rfl, σ.withoutID_setID _ _⟩
    simp [Repository.FindByID, Repository.FindOne, memDriver, Doc.decode, List.find?_append,
      hold, hnew]

theorem InsertOne_FindByID_witness :
    (Repository.InsertOne (memDriver noteSchema)
        { docs := [⟨.str "k1", ⟨some "k1", "hello"⟩⟩], inserts := 1 } ⟨none, "world"⟩).1
        = .ok (List.replicate 11 0 ++ [2]) ∧
      (∃ found, Repository.FindByID (memDriver noteSchema)
          { docs := [⟨.str "k1", ⟨some "k1", "hello"⟩⟩,
                     ⟨.oid (List.replicate 11 0 ++ [2]), ⟨none, "world"⟩⟩], inserts := 2 }
          (List.replicate 11 0 ++ [2]) = .ok (some found) ∧
        found = noteSchema.setID (.oid (List.replicate 11 0 ++ [2])) ⟨none, "world"⟩ ∧
        noteSchema.withoutID found = noteSchema.withoutID ⟨none, "world"⟩) ∧
      noteSchema.setID (.oid (List.replicate 11 0 ++ [2])) ⟨none, "world"⟩
        = ⟨some "000000000000000000000002", "world"⟩ :=
  ⟨by decide, InsertOne_FindByID noteSchema
    { docs := [⟨.str "k1", ⟨some "k1", "hello"⟩⟩], inserts := 1 } _ ⟨none, "world"⟩
    (List.replicate 11 0 ++ [2]) (Or.inl rfl) rfl, by decide⟩

/-! ## The query builder -/

theorem M.get_set_self (m : M) (key : String) (value : Bson) :
    (m.set key value).get key = some value := by
  simp [M.get, M.set]

theorem M.get_set_other (m : M) (key other : String) (value : Bson) (h : other ≠ key) :
    (m.set key value).get other = m.get other := by
  have hne : ¬ key = other := fun e => h e.symm
  simp only [M.get, M.set, List.find?_cons, hne, decide_False]
  have : List.find? (fun e => decide (e.1 = other))
      (List.filter (fun e => decide (e.1 ≠ key)) m.entries)
      = List.find? (fun e => decide (e.1 = other)) m.entries := by
    rw [List.find?_filter]
    congr 1
    funext a
    by_cases ho : a.1 = other
    · have hk : ¬ a.1 = key := fun hk => h (ho.symm.trans hk)
      simp [ho, h]
    · simp [ho]
  rw [this]

theorem M.keys_set_nodup (m : M) (key : String) (value : Bson)
    (h : (m.entries.map Prod.fst).Nodup) : ((m.set key value).entries.map Prod.fst).Nodup := by
  simp only [M.set, List.map_cons, List.nodup_cons]
  refine ⟨?_, ?_⟩
  · intro hmem
    obtain ⟨e, he, hk⟩ := List.mem_map.mp hmem
    have := (List.mem_filter.mp he).2
    simp at this
    exact this hk
  · exact (List.filter_sublist _).map Prod.fst |>.nodup h

theorem FilterCall.apply_filter (c : FilterCall) (qb : QueryBuilder) :
    (c.apply qb).filter = qb.filter.set c.key c.constraint ∧ (c.apply qb).opts = qb.opts := by
  cases c <;> exact ⟨rfl, rfl⟩

theorem applyCalls_snoc (calls : List FilterCall) (c : FilterCall) (qb : QueryBuilder) :
    applyCalls (calls ++ [c]) qb = c.apply (applyCalls calls qb) := by
  simp [applyCalls, List.foldl_append]

theorem lastCallOn_snoc (key : String) (calls : List FilterCall) (c : FilterCall) :
    lastCallOn key (calls ++ [c]) = if c.key = key then some c else lastCallOn key calls := by
  simp only [lastCallOn, List.reverse_append, List.reverse_cons, List.reverse_nil,
    List.nil_append, List.singleton_append, List.find?_cons]
  by_cases h : c.key = key <;> simp [h]

theorem M.mem_keys_iff (m : M) (key : String) :
    key ∈ m.entries.map Prod.fst ↔ (m.get key).isSome = true := by
  simp only [M.get]
  constructor
  · intro h
    obtain ⟨e, he, hk⟩ := List.mem_map.mp h
    cases hf : m.entries.find? (fun e => decide (e.1 = key)) with
    | some x => rfl
    | none =>
      have := List.find?_eq_none.mp hf e he
      simp [hk] at this
  · intro h
    cases hf : m.entries.find? (fun e => decide (e.1 = key)) with
    | some x =>
      have hx := List.find?_some hf
      have hm := List.mem_of_find?_eq_some hf
      exact List.mem_map.mpr ⟨x, hm, by simpa using hx⟩
    | none => simp [hf] at h

theorem applyCalls_get (calls : List FilterCall) : ∀ key,
    (applyCalls calls NewQueryBuilder).filter.get key
      = (lastCallOn key calls).map FilterCall.constraint := by
  induction calls using List.reverseRecOn with
  | nil => intro key; rfl
  | append_singleton l c ih =>
    intro key
    rw [applyCalls_snoc, lastCallOn_snoc, (FilterCall.apply_filter c _).1]
    by_cases h : c.key = key
    · simp only [h, if_true, Option.map_some']
      rw [← h, M.get_set_self]
    · simp only [h, if_false]
      rw [M.get_set_other _ _ _ _ (fun e => h e.symm), ih key]

theorem applyCalls_nodup (calls : List FilterCall) :
    ((applyCalls calls NewQueryBuilder).filter.entries.map Prod.fst).Nodup := by
  induction calls using List.reverseRecOn with
  | nil => exact List.nodup_nil
  | append_singleton l c ih =>
    rw [applyCalls_snoc, (FilterCall.apply_filter c _).1]
    exact M.keys_set_nodup _ _ _ ih

theorem applyCalls_opts (calls : List FilterCall) :
    (applyCalls calls NewQueryBuilder).opts = FindOptions.Find := by
  induction calls using List.reverseRecOn with
  | nil => rfl
  | append_singleton l c ih => rw [applyCalls_snoc, (FilterCall.apply_filter c _).2, ih]

/-- C15: after any sequence of `Where`, `WhereIn`, `WhereGreaterThan` and
`WhereLessThan` calls on a new query builder, the filter maps each field to
the constraint of the last call that named it (the value, `{$in: values}`,
`{$gt: value}` or `{$lt: value}`), holds exactly the fields that were
named, each once, and the options are still those of a new builder.  A
single call sets the constraint of its field, replacing what was there, and
leaves the constraints of all other fields and the options unchanged. -/
theorem QueryBuilder_filter_spec (calls : List FilterCall) :
    (∀ key, (applyCalls calls NewQueryBuilder).filter.get key
        = (lastCallOn key calls).map FilterCall.constraint) ∧
      (∀ key, key ∈ (applyCalls calls NewQueryBuilder).filter.entries.map Prod.fst ↔
        ∃ c ∈ calls, c.key = key) ∧
      ((applyCalls calls NewQueryBuilder).filter.entries.map Prod.fst).Nodup ∧
      (applyCalls calls NewQueryBuilder).opts = FindOptions.Find ∧
      ∀ (qb : QueryBuilder) (c : FilterCall),
        (c.apply qb).filter.get c.key = some c.constraint ∧
        (∀ other, other ≠ c.key → (c.apply qb).filter.get other = qb.filter.get other) ∧
        (c.apply qb).opts = qb.opts := by
  have hget := applyCalls_get calls
  have hnodup := applyCalls_nodup calls
  have hopts := applyCalls_opts calls
  refine ⟨hget, ?_, hnodup, hopts, ?_⟩
  · intro key
    rw [M.mem_keys_iff, hget key]
    simp only [lastCallOn, Option.isSome_map']
    constructor
    · intro h
      cases hf : List.find? (fun c => decide (c.key = key)) calls.reverse with
      | none => simp [hf] at h
      | some c =>
        have hm := List.mem_of_find?_eq_some hf
        have hk := List.find?_some hf
        exact ⟨c, List.mem_reverse.mp hm, by simpa using hk⟩
    · rintro ⟨c, hc, hk⟩
      cases hf : List.find? (fun c => decide (c.key = key)) calls.reverse with
      | some x => rfl
      | none =>
        have := List.find?_eq_none.mp hf c (List.mem_reverse.mpr hc)
        simp [hk] at this
  · intro qb c
    rw [(FilterCall.apply_filter c qb).1]
    exact ⟨M.get_set_self _ _ _, fun other h => M.get_set_other _ _ _ _ h,
      (FilterCall.apply_filter c qb).2⟩

theorem QueryBuilder_filter_spec_witness :
    (applyCalls [.Where "age" (.int 3), .WhereGreaterThan "age" (.int 5),
        .WhereIn "tag" (.arr [.str "a", .str "b"])] NewQueryBuilder).filter.get "age"
        = some (.doc [("$gt", .int 5)]) ∧
      (applyCalls [.Where "age" (.int 3), .WhereGreaterThan "age" (.int 5),
        .WhereIn "tag" (.arr [.str "a", .str "b"])] NewQueryBuilder).filter.get "tag"
        = some (.doc [("$in", .arr [.str "a", .str "b"])]) ∧
      (applyCalls [.Where "age" (.int 3), .WhereGreaterThan "age" (.int 5),
        .WhereIn "tag" (.arr [.str "a", .str "b"])] NewQueryBuilder).filter.get "name" = none :=
  have h := (QueryBuilder_filter_spec [.Where "age" (.int 3), .WhereGreaterThan "age" (.int 5),
    .WhereIn "tag" (.arr [.str "a", .str "b"])]).1
  ⟨h "age", h "tag", h "name"⟩

/-! ## Loopback addresses -/

theorem indexOf_split {α : Type} [DecidableEq α] (c : α) (l : List α) (h : c ∈ l) :
    ∃ pre post, l = pre ++ c :: post ∧ c ∉ post ∧
      l.length - 1 - l.reverse.indexOf c = pre.length := by
  obtain ⟨as, bs, hr, hn⟩ := List.eq_append_cons_of_mem (List.mem_reverse.mpr h)
  have hl : l = bs.reverse ++ c :: as.reverse := by
    have := congrArg List.reverse hr
    simpa using this
  refine ⟨bs.reverse, as.reverse, hl, by simpa using hn, ?_⟩
  have hi : l.reverse.indexOf c = as.length := by
    rw [hr, List.indexOf_append_of_not_mem hn, List.indexOf_cons_self]
    rfl
  rw [hi]
  have : l.length = bs.length + (as.length + 1) := by
    rw [hl]; simp
  simp only [List.length_reverse]
  omega

theorem count_drop_takeWhile (c : Char) (p : Char → Bool) (hp : p c = false) :
    ∀ l : List Char, (l.drop (l.takeWhile p).length).count c = l.count c
  | [] => rfl
  | x :: xs => by
    by_cases hx : p x = true
    · have hne : x ≠ c := fun e => by rw [e, hp] at hx; cases hx
      simp only [List.takeWhile_cons, hx, if_true, List.length_cons, List.drop_succ_cons]
      rw [count_drop_takeWhile c p hp xs, List.count_cons_of_ne hne.symm]
    · simp [List.takeWhile_cons, hx]

theorem parseIPv4Loop_spec : ∀ (s : List Char) (atStart : Bool) (prev : Char) (val digLen : Nat)
    (fields res : List Nat), parseIPv4Loop s atStart prev val digLen fields = some res →
    ':' ∉ s ∧ (fields.length ≤ 3 → res.length ≤ 4)
  | [], _, _, val, _, fields, res, h => by
    simp only [parseIPv4Loop] at h
    split_ifs at h with h3
    cases h
    refine ⟨by simp, fun _ => ?_⟩
    simp only [List.length_append, List.length_singleton]
    omega
  | c :: rest, atStart, prev, val, digLen, fields, res, h => by
    simp only [parseIPv4Loop] at h
    split_ifs at h with h1 h2 h3 h4 h5 h6
    · obtain ⟨a, b⟩ := parseIPv4Loop_spec rest _ _ _ _ _ _ h
      refine ⟨?_, b⟩
      simp only [List.mem_cons, not_or]
      refine ⟨?_, a⟩
      intro e
      rw [← e] at h1
      exact absurd h1 (by decide)
    · obtain ⟨a, b⟩ := parseIPv4Loop_spec rest _ _ _ _ _ _ h
      refine ⟨?_, fun hf => ?_⟩
      · simp only [List.mem_cons, not_or]
        refine ⟨?_, a⟩
        rw [h4]
        decide
      · have := b (by simp only [List.length_append, List.length_singleton]; omega)
        exact this

theorem parseIPv6Loop_spec : ∀ (fuel : Nat) (s : List Char) (ip : List Nat) (e : Option Nat)
    (rest : List Char) (ip' : List Nat) (e' : Option Nat),
    parseIPv6Loop fuel s ip e = some (rest, ip', e') →
    ip'.length ≤ ip.length + 2 * s.count ':' + 4 ∧ (e = none → e' ≠ none → 2 ≤ s.count ':')
  | 0, s, ip, e, rest, ip', e', h => by
    simp only [parseIPv6Loop, Option.some.injEq, Prod.mk.injEq] at h
    obtain ⟨-, rfl, rfl⟩ := h
    exact ⟨by omega, fun h1 h2 => absurd h1 h2⟩
  | fuel + 1, s, ip, e, rest, ip', e', h => by
    have hcount := count_drop_takeWhile ':' (fun c => (fromHexChar c).isSome) (by decide) s
    simp only [parseIPv6Loop] at h
    generalize hd : s.drop (s.takeWhile fun c => (fromHexChar c).isSome).length = d at h hcount
    by_cases h16 : 16 ≤ ip.length
    · simp only [h16, if_true, Option.some.injEq, Prod.mk.injEq] at h
      obtain ⟨-, rfl, rfl⟩ := h
      exact ⟨by omega, fun h1 h2 => absurd h1 h2⟩
    simp only [h16, if_false] at h
    by_cases h4 : (s.takeWhile fun c => (fromHexChar c).isSome).length > 4
    · simp [h4] at h
    simp only [h4, if_false] at h
    by_cases h0 : (s.takeWhile fun c => (fromHexChar c).isSome).length = 0
    · simp [h0] at h
    simp only [h0, if_false] at h
    by_cases hdot : d.head? = some '.'
    · simp only [hdot, if_true] at h
      split_ifs at h with hell hroom
      cases hf : parseIPv4Fields s with
      | none => simp [hf] at h
      | some fields =>
        simp only [hf, Option.some.injEq, Prod.mk.injEq] at h
        obtain ⟨-, rfl, rfl⟩ := h
        have := (parseIPv4Loop_spec s _ _ _ _ _ _ hf).2 (by simp)
        refine ⟨by simp only [List.length_append]; omega, fun h1 h2 => absurd h1 h2⟩
    simp only [hdot, if_false] at h
    have hlen : (ip ++ [hexValue (s.takeWhile fun c => (fromHexChar c).isSome) / 256,
        hexValue (s.takeWhile fun c => (fromHexChar c).isSome) % 256]).length = ip.length + 2 := by
      simp
    generalize ip ++ [hexValue (s.takeWhile fun c => (fromHexChar c).isSome) / 256,
        hexValue (s.takeWhile fun c => (fromHexChar c).isSome) % 256] = ip1 at h hlen
    cases d with
    | nil =>
      simp only [Option.some.injEq, Prod.mk.injEq] at h
      obtain ⟨-, rfl, rfl⟩ := h
      exact ⟨by omega, fun h1 h2 => absurd h1 h2⟩
    | cons c r =>
      simp only at h
      by_cases hc : c = ':'
      · subst hc
        simp only [ne_eq, not_true_eq_false, if_false] at h
        cases r with
        | nil => simp at h
        | cons c1 r1 =>
          simp only at h
          by_cases hc1 : c1 = ':'
          · subst hc1
            have hc2 : 2 ≤ s.count ':' := by
              rw [← hcount]
              simp [List.count_cons]
            simp only [if_true] at h
            split_ifs at h with hes
            cases r1 with
            | nil =>
              simp only [Option.some.injEq, Prod.mk.injEq] at h
              obtain ⟨-, rfl, rfl⟩ := h
              exact ⟨by omega, fun _ _ => hc2⟩
            | cons c2 r2 =>
              simp only at h
              have ih := (parseIPv6Loop_spec fuel _ _ _ _ _ _ h).1
              have hcnt : (c2 :: r2).count ':' + 2 = s.count ':' := by
                rw [← hcount]
                simp [List.count_cons]
              exact ⟨by omega, fun _ _ => hc2⟩
          · simp only [hc1, if_false] at h
            obtain ⟨ih1, ih2⟩ := parseIPv6Loop_spec fuel _ _ _ _ _ _ h
            have hcnt : (c1 :: r1).count ':' + 1 = s.count ':' := by
              rw [← hcount]
              simp [List.count_cons]
            exact ⟨by omega, fun h1 h2 => by have := ih2 h1 h2; omega⟩
      · simp [hc] at h

theorem parseIPv6_colons (text : List Char) (a : List Nat) (h : parseIPv6 text = some a) :
    2 ≤ text.count ':' := by
  unfold parseIPv6 at h
  split_ifs at h with hpct
  by_cases hlead : text.take 2 = [':', ':']
  · have ht : text = text.take 2 ++ text.drop 2 := (List.take_append_drop 2 text).symm
    rw [ht, hlead]
    simp [List.count_cons]
  · simp only [hlead, decide_False, Bool.false_eq_true, if_false, false_and] at h
    cases hloop : parseIPv6Loop 8 text [] none with
    | none => simp [hloop] at h
    | some r =>
      obtain ⟨rest, ip, ell⟩ := r
      obtain ⟨hb, he⟩ := parseIPv6Loop_spec 8 text [] none rest ip ell hloop
      simp only [hloop] at h
      split_ifs at h with hrest hlt hsome
      · cases ell with
        | none => simp at h
        | some e => exact he rfl (by simp)
      · simp only [List.length_nil] at hb
        omega

theorem ParseIP_cases (s : List Char) (a : List Nat) (h : ParseIP s = some a) :
    (∃ fields, parseIPv4Fields s = some fields) ∨ parseIPv6 s = some a := by
  unfold ParseIP at h
  split at h
  · cases hf : parseIPv4Fields s with
    | none => simp [hf] at h
    | some fields => exact Or.inl ⟨fields, rfl⟩
  · exact Or.inr h
  · cases h

theorem parseIPv6_bracket (rest : List Char) : parseIPv6 ('[' :: rest) = none := by
  unfold parseIPv6
  split_ifs with hpct
  · rfl
  · have hlead : ¬ (('[' :: rest).take 2 = [':', ':']) := by
      intro h
      cases rest <;> simp at h
    have h0 : fromHexChar '[' = none := by decide
    simp [hlead, parseIPv6Loop, List.takeWhile_cons, h0]

theorem parseIPv4Fields_bracket (rest : List Char) : parseIPv4Fields ('[' :: rest) = none := by
  have h1 : ¬ ('0'.toNat ≤ '['.toNat ∧ '['.toNat ≤ '9'.toNat) := by decide
  have h2 : ¬ ('[' = '.') := by decide
  simp only [parseIPv4Fields, parseIPv4Loop, h1, h2, if_false]

/-- Text that parses as an IP address is no host-and-port text. -/
theorem SplitHostPort_of_ParseIP (s : List Char) (a : List Nat) (h : ParseIP s = some a) :
    SplitHostPort s = none := by
  rcases ParseIP_cases s a h with ⟨fields, h4⟩ | h6
  · have hno : ':' ∉ s := (parseIPv4Loop_spec s _ _ _ _ _ _ h4).1
    simp [SplitHostPort, hno]
  · have h2 := parseIPv6_colons s a h6
    have hmem : ':' ∈ s := List.count_pos_iff.mp (by omega)
    cases s with
    | nil => simp at hmem
    | cons c rest =>
      by_cases hc : c = '['
      · subst hc
        rw [parseIPv6_bracket] at h6
        cases h6
      · obtain ⟨pre, post, hs, hpost, hi⟩ := indexOf_split ':' (c :: rest) hmem
        have hcont : (c :: rest).contains ':' = true := by simpa using hmem
        have hhead : ¬ ((c :: rest).head? = some '[') := by simpa using hc
        have htake : (c :: rest).take pre.length = pre := by
          rw [hs]; simp
        have hpre : ':' ∈ pre := by
          have hc0 : post.count ':' = 0 := List.count_eq_zero.mpr hpost
          have : (c :: rest).count ':' = pre.count ':' + 1 + post.count ':' := by
            rw [hs]; simp [List.count_cons]; omega
          exact List.count_pos_iff.mp (by omega)
        have hprec : pre.contains ':' = true := by simpa using hpre
        unfold SplitHostPort
        rw [if_neg (by rw [hcont]; simp), if_neg hhead]
        simp only [hi, htake]
        rw [if_pos hprec]

theorem IsLocalhost_eq (ip : String) :
    IsLocalhost ip =
      if hostOf ip = "localhost" ∨ hostOf ip = "127.0.0.1" ∨ hostOf ip = "::1" then true
      else isLoopbackText (hostOf ip) := rfl

theorem IsLoopback_iff (a : List Nat) :
    IsLoopback a = true ↔
      (∃ ip4, To4 a = some ip4 ∧ ip4.head? = some 127) ∨ a = List.replicate 15 0 ++ [1] := by
  unfold IsLoopback
  cases h : To4 a with
  | none => simp
  | some ip4 =>
    simp only [decide_eq_true_eq, Option.some.injEq, exists_eq_left']
    constructor
    · exact Or.inl
    · rintro (h1 | h2)
      · exact h1
      · rw [h2] at h
        have hn : To4 (List.replicate 15 0 ++ [1]) = none := by decide
        rw [hn] at h
        cases h

/-- C16 as stated fails: the host part of "[::1]", with the brackets
stripped, is the loopback address "::1", so the stated predicate holds, but
`IsLocalhost("[::1]")` is false: `net.SplitHostPort` strips brackets only
together with a port, and the bracketed text is no IP address. -/
theorem IsLocalhost_brackets_without_port :
    specHostPart "[::1]" = "::1" ∧ specIsLocalhost "[::1]" = true ∧
      hostOf "[::1]" = "[::1]" ∧ IsLocalhost "[::1]" = false := by
  decide

/-- C16, amended: `IsLocalhost(ip)` is true if and only if the host of `ip`
is the literal "localhost" or parses as a loopback IP address, where the
host is the one that `net.SplitHostPort` yields (a `:port` suffix removed,
and the brackets of a bracketed host that is followed by a port), or all of
`ip` when that fails; a loopback address is an address in 127.0.0.0/8 (also
in its IPv4-mapped form) or ::1.  It is true for "127.0.0.1", "::1",
"localhost", "127.0.0.1:8080", "127.0.0.2" and "[::1]:8080", and false for
every text that is a non-loopback IP address. -/
theorem IsLocalhost_iff (ip : String) :
    (IsLocalhost ip = true ↔ hostOf ip = "localhost" ∨ isLoopbackText (hostOf ip) = true) ∧
      (∀ a : List Nat, IsLoopback a = true ↔
        (∃ ip4, To4 a = some ip4 ∧ ip4.head? = some 127) ∨ a = List.replicate 15 0 ++ [1]) ∧
      (IsLocalhost "127.0.0.1" = true ∧ IsLocalhost "::1" = true ∧
        IsLocalhost "localhost" = true ∧ IsLocalhost "127.0.0.1:8080" = true ∧
        IsLocalhost "127.0.0.2" = true ∧ IsLocalhost "[::1]:8080" = true) ∧
      (∀ a, ParseIP ip.data = some a → IsLoopback a = false → IsLocalhost ip = false) := by
  refine ⟨?_, IsLoopback_iff, by decide, ?_⟩
  · rw [IsLocalhost_eq]
    by_cases hA : hostOf ip = "localhost"
    · simp [hA]
    · by_cases hB : hostOf ip = "127.0.0.1"
      · have : isLoopbackText "127.0.0.1" = true := by decide
        simp [hB, this]
      · by_cases hC : hostOf ip = "::1"
        · have : isLoopbackText "::1" = true := by decide
          simp [hC, this]
        · simp [hA, hB, hC]
  · intro a hp hl
    have hs := SplitHostPort_of_ParseIP ip.data a hp
    have hh : hostOf ip = ip := by simp only [hostOf, hs]
    have hlt : isLoopbackText ip = false := by simp only [isLoopbackText, hp, hl]
    rw [IsLocalhost_eq, hh]
    have h1 : ¬ ip = "localhost" := by
      intro e
      rw [e] at hp
      have hn : ParseIP "localhost".data = none := by decide
      rw [hn] at hp
      cases hp
    have h2 : ¬ ip = "127.0.0.1" := by
      intro e
      rw [e] at hlt
      exact absurd hlt (by decide)
    have h3 : ¬ ip = "::1" := by
      intro e
      rw [e] at hlt
      exact absurd hlt (by decide)
    simp [h1, h2, h3, hlt]

/-! ## Tokens for text that need not be well-formed -/

theorem GoString.ofString_append (a b : String) :
    GoString.ofString (a ++ b) = GoString.ofString a ++ GoString.ofString b := by
  show (⟨(a ++ b).data.map .char⟩ : GoString) = ⟨a.data.map .char ++ b.data.map .char⟩
  simp [String.data_append]

/-- Well-formed text is written and read back as it is. -/
theorem GoString.toValidUTF8_ofString (s : String) : (GoString.ofString s).toValidUTF8 = s := by
  simp [GoString.toValidUTF8, GoString.ofString, List.map_map, Function.comp_def]

/-- A string that is well-formed UTF-8 is the text it is coerced to. -/
theorem GoString.ofString_toValidUTF8 (g : GoString) (h : g.ValidString = true) :
    GoString.ofString g.toValidUTF8 = g := by
  cases g with
  | mk steps =>
    simp only [GoString.ValidString, List.all_eq_true] at h
    simp only [GoString.ofString, GoString.toValidUTF8, List.map_map, GoString.mk.injEq]
    conv_rhs => rw [← List.map_id steps]
    apply List.map_congr_left
    intro u hu
    cases u with
    | char c => rfl
    | stray b => exact absurd (h _ hu) (by simp [Utf8Step.isChar])

/-- On well-formed text `GetJwtStringRaw` is `GetJwtString`. -/
theorem GetJwtStringRaw_ofString (L : RawLib) (now : Time) (ip email uid : String) :
    GetJwtStringRaw L now (GoString.ofString ip) (GoString.ofString email) (GoString.ofString uid)
      = GetJwtString L.toLib now ip email uid := by
  simp only [GetJwtStringRaw, GetJwtString, ← GoString.ofString_append, L.sha256Raw_ofString]

/-- On well-formed text `CreateTokenRaw` is `CreateToken`. -/
theorem CreateTokenRaw_ofString (L : RawLib) (now : Time) (ip uid email role : String) :
    CreateTokenRaw L now (GoString.ofString ip) (GoString.ofString uid) (GoString.ofString email)
        (GoString.ofString role)
      = CreateToken L.toLib now ip uid email role := by
  simp only [CreateTokenRaw, CreateToken, GetJwtStringRaw_ofString, GoString.toValidUTF8_ofString]

/-- For a client IP that is well-formed text `ParseTokenRaw` is `ParseToken`. -/
theorem ParseTokenRaw_ofString (L : RawLib) (now : Time) (tokenStr : TokenString) (ip : String) :
    ParseTokenRaw L now tokenStr (GoString.ofString ip) = ParseToken L.toLib now tokenStr ip := by
  have hk : keyFuncRaw L now (GoString.ofString ip) = keyFunc L.toLib now ip := by
    funext token
    simp only [keyFuncRaw, keyFunc, GetJwtStringRaw_ofString, GoString.toValidUTF8_ofString]
  simp only [ParseTokenRaw, ParseToken, ParseTokenTraced, hk]
  cases (ParseWithClaims L.toLib now tokenStr (keyFunc L.toLib now ip)).val with
  | error e => rfl
  | ok token => by_cases hv : (!token.Valid) = true <;> simp [hv]

/-- A token with the HS256 header, signed under the secret derived for its
own claims and the client IP, and whose claims are valid at `now`, parses to
its claims. -/
theorem ParseTokenRaw_of_signed (L : RawLib) (now : Time) (ip : GoString) (s : Segments)
    (halg : s.alg = some "HS256")
    (hsig : s.sig = L.hmacSHA256 (GetJwtStringRaw L now ip (GoString.ofString s.claims.Email)
      (GoString.ofString s.claims.UserID)) s.text)
    (hval : Validate now s.claims = .ok ()) :
    ParseTokenRaw L now (.compact s) ip = .ok s.claims := by
  simp [ParseTokenRaw, ParseWithClaims, ParseUnverified, GetSigningMethod,
    keyFuncRaw, Verify, halg, hsig, hval]

/-- A token with the HS256 header whose signature is not the MAC of its text
under the secret derived at verification fails with a signature error. -/
theorem ParseTokenRaw_wrong_key (L : RawLib) (now : Time) (ip : GoString) (s : Segments)
    (halg : s.alg = some "HS256")
    (hsig : L.hmacSHA256 (GetJwtStringRaw L now ip (GoString.ofString s.claims.Email)
      (GoString.ofString s.claims.UserID)) s.text ≠ s.sig) :
    ParseTokenRaw L now (.compact s) ip = .error .TokenSignatureInvalid := by
  simp [ParseTokenRaw, ParseWithClaims, ParseUnverified, GetSigningMethod,
    keyFuncRaw, Verify, halg, hsig]

/-- When the subject id and the email are well-formed text, the token that
`CreateTokenRaw` makes parses, for the same client IP and clock reading, to
the claims it was made with: the texts that the inputs are coerced to. -/
theorem ParseTokenRaw_CreateTokenRaw (L : RawLib) (now : Time) (ip uid email role : GoString)
    (huid : uid.ValidString = true) (hemail : email.ValidString = true) :
    ∃ s, CreateTokenRaw L now ip uid email role = .ok (.compact s) ∧
      ParseTokenRaw L now (.compact s) ip = .ok s.claims ∧
      s.claims.UserID = uid.toValidUTF8 ∧ s.claims.Email = email.toValidUTF8 ∧
      s.claims.Role = role.toValidUTF8 ∧ s.claims.Issuer = "files-receiver" ∧
      s.claims.IssuedAt = some now.Unix ∧ s.claims.ExpiresAt = some (now.Unix + 12 * 3600) := by
  refine ⟨_, rfl, ParseTokenRaw_of_signed L now ip _ rfl ?_ ?_, rfl, rfl, rfl, rfl, rfl, ?_⟩
  · show L.hmacSHA256 (GetJwtStringRaw L now ip email uid) _
      = L.hmacSHA256 (GetJwtStringRaw L now ip (GoString.ofString email.toValidUTF8)
          (GoString.ofString uid.toValidUTF8)) _
    rw [GoString.ofString_toValidUTF8 _ hemail, GoString.ofString_toValidUTF8 _ huid]
  · have hexp := now_before_expiry now
    simp [Validate, NewNumericDate, hexp]
  · simp only [NewNumericDate, Time.Add, Time.Unix, JWT_EXPIRATION, Hour, Second, Option.some.injEq]
    omega

/-- The token made for the email "a@b.c" followed by the byte 0xFF carries
the email with U+FFFD in place of the byte, so the secret that `ParseToken`
derives from the claims is the digest of another text than at issuance, and
the token is rejected with a signature error, provided the digest does not
collide on the two texts and the MAC does not collide on the two secrets. -/
theorem ParseTokenRaw_illFormedEmail (L : RawLib)
    (hsha : NoCollision L.sha256Raw
      (GoString.ofString "1.2.3.4|a@b.c\uFFFD_u1^2025-11-04")
      (GoString.ofString "1.2.3.4|" ++ illFormedEmail ++ GoString.ofString "_u1^2025-11-04"))
    (hmac : ∀ s, CreateTokenRaw L ⟨1762293600 * Second, 0⟩ (GoString.ofString "1.2.3.4")
        (GoString.ofString "u1") illFormedEmail (GoString.ofString "admin") = .ok (.compact s) →
      NoCollision (fun key => L.hmacSHA256 key s.text)
        (GetJwtStringRaw L ⟨1762293600 * Second, 0⟩ (GoString.ofString "1.2.3.4")
          (GoString.ofString illFormedEmail.toValidUTF8) (GoString.ofString "u1"))
        (GetJwtStringRaw L ⟨1762293600 * Second, 0⟩ (GoString.ofString "1.2.3.4")
          illFormedEmail (GoString.ofString "u1"))) :
    ∃ tok, CreateTokenRaw L ⟨1762293600 * Second, 0⟩ (GoString.ofString "1.2.3.4")
        (GoString.ofString "u1") illFormedEmail (GoString.ofString "admin") = .ok tok ∧
      ParseTokenRaw L ⟨1762293600 * Second, 0⟩ tok (GoString.ofString "1.2.3.4")
        = .error .TokenSignatureInvalid := by
  have e1 : GoString.ofString "1.2.3.4" ++ GoString.ofString "|"
      ++ GoString.ofString illFormedEmail.toValidUTF8 ++ GoString.ofString "_"
      ++ GoString.ofString "u1" ++ GoString.ofString "^"
      ++ GoString.ofString (Time.Format ⟨1762293600 * Second, 0⟩)
      = GoString.ofString "1.2.3.4|a@b.c\uFFFD_u1^2025-11-04" := by decide
  have e2 : GoString.ofString "1.2.3.4" ++ GoString.ofString "|"
      ++ illFormedEmail ++ GoString.ofString "_"
      ++ GoString.ofString "u1" ++ GoString.ofString "^"
      ++ GoString.ofString (Time.Format ⟨1762293600 * Second, 0⟩)
      = GoString.ofString "1.2.3.4|" ++ illFormedEmail ++ GoString.ofString "_u1^2025-11-04" := by
    decide
  have hkey : GetJwtStringRaw L ⟨1762293600 * Second, 0⟩ (GoString.ofString "1.2.3.4")
        (GoString.ofString illFormedEmail.toValidUTF8) (GoString.ofString "u1")
      ≠ GetJwtStringRaw L ⟨1762293600 * Second, 0⟩ (GoString.ofString "1.2.3.4")
        illFormedEmail (GoString.ofString "u1") := by
    intro h
    simp only [GetJwtStringRaw, e1, e2] at h
    exact hsha (by decide) (ByteArr.eq_of_bytes _ _ (EncodeToString_injective h))
  exact ⟨_, rfl, ParseTokenRaw_wrong_key L _ _ _ rfl (hmac _ rfl hkey)⟩

/-- The token made for the subject id "u1" followed by the byte 0xFF is
rejected likewise: its claims carry the subject id with U+FFFD in place of
the byte. -/
theorem ParseTokenRaw_illFormedUid (L : RawLib)
    (hsha : NoCollision L.sha256Raw
      (GoString.ofString "1.2.3.4|a@b.c_u1\uFFFD^2025-11-04")
      (GoString.ofString "1.2.3.4|a@b.c_" ++ illFormedUid ++ GoString.ofString "^2025-11-04"))
    (hmac : ∀ s, CreateTokenRaw L ⟨1762293600 * Second, 0⟩ (GoString.ofString "1.2.3.4")
        illFormedUid (GoString.ofString "a@b.c") (GoString.ofString "admin") = .ok (.compact s) →
      NoCollision (fun key => L.hmacSHA256 key s.text)
        (GetJwtStringRaw L ⟨1762293600 * Second, 0⟩ (GoString.ofString "1.2.3.4")
          (GoString.ofString "a@b.c") (GoString.ofString illFormedUid.toValidUTF8))
        (GetJwtStringRaw L ⟨1762293600 * Second, 0⟩ (GoString.ofString "1.2.3.4")
          (GoString.ofString "a@b.c") illFormedUid)) :
    ∃ tok, CreateTokenRaw L ⟨1762293600 * Second, 0⟩ (GoString.ofString "1.2.3.4")
        illFormedUid (GoString.ofString "a@b.c") (GoString.ofString "admin") = .ok tok ∧
      ParseTokenRaw L ⟨1762293600 * Second, 0⟩ tok (GoString.ofString "1.2.3.4")
        = .error .TokenSignatureInvalid := by
  have e1 : GoString.ofString "1.2.3.4" ++ GoString.ofString "|"
      ++ GoString.ofString "a@b.c" ++ GoString.ofString "_"
      ++ GoString.ofString illFormedUid.toValidUTF8 ++ GoString.ofString "^"
      ++ GoString.ofString (Time.Format ⟨1762293600 * Second, 0⟩)
      = GoString.ofString "1.2.3.4|a@b.c_u1\uFFFD^2025-11-04" := by decide
  have e2 : GoString.ofString "1.2.3.4" ++ GoString.ofString "|"
      ++ GoString.ofString "a@b.c" ++ GoString.ofString "_"
      ++ illFormedUid ++ GoString.ofString "^"
      ++ GoString.ofString (Time.Format ⟨1762293600 * Second, 0⟩)
      = GoString.ofString "1.2.3.4|a@b.c_" ++ illFormedUid ++ GoString.ofString "^2025-11-04" := by
    decide
  have e3 : GoString.ofString (GoString.ofString "a@b.c").toValidUTF8
      = GoString.ofString "a@b.c" := by decide
  have hkey : GetJwtStringRaw L ⟨1762293600 * Second, 0⟩ (GoString.ofString "1.2.3.4")
        (GoString.ofString "a@b.c") (GoString.ofString illFormedUid.toValidUTF8)
      ≠ GetJwtStringRaw L ⟨1762293600 * Second, 0⟩ (GoString.ofString "1.2.3.4")
        (GoString.ofString "a@b.c") illFormedUid := by
    intro h
    simp only [GetJwtStringRaw, e1, e2] at h
    exact hsha (by decide) (ByteArr.eq_of_bytes _ _ (EncodeToString_injective h))
  refine ⟨_, rfl, ParseTokenRaw_wrong_key L _ _ _ rfl ?_⟩
  have := hmac _ rfl hkey
  simpa only [CreateTokenRaw, e3] using this

/-- C1 as stated fails for text that is not well-formed UTF-8.  At the email
"a@b.c" followed by the byte 0xFF (client IP "1.2.3.4", subject id "u1", role
"admin", the clock held at 2025-11-04 22:00 UTC) `CreateToken` returns a
token and `ParseToken` rejects it with a signature error, for every library
whose digest and MAC do not collide on the two secrets, and so for the
stand-in library; the same holds at the subject id "u1" followed by the byte
0xFF.  At the role "admin" followed by the byte 0xFF the token parses, and
the role of the claims is "admin" followed by U+FFFD, which is not the role
that was passed. -/
theorem ParseToken_CreateToken_illformed :
    illFormedEmail.ValidString = false ∧
      (∀ L : RawLib,
        NoCollision L.sha256Raw
          (GoString.ofString "1.2.3.4|a@b.c\uFFFD_u1^2025-11-04")
          (GoString.ofString "1.2.3.4|" ++ illFormedEmail ++ GoString.ofString "_u1^2025-11-04") →
        (∀ s, CreateTokenRaw L ⟨1762293600 * Second, 0⟩ (GoString.ofString "1.2.3.4")
            (GoString.ofString "u1") illFormedEmail (GoString.ofString "admin")
            = .ok (.compact s) →
          NoCollision (fun key => L.hmacSHA256 key s.text)
            (GetJwtStringRaw L ⟨1762293600 * Second, 0⟩ (GoString.ofString "1.2.3.4")
              (GoString.ofString illFormedEmail.toValidUTF8) (GoString.ofString "u1"))
            (GetJwtStringRaw L ⟨1762293600 * Second, 0⟩ (GoString.ofString "1.2.3.4")
              illFormedEmail (GoString.ofString "u1"))) →
        ∃ tok, CreateTokenRaw L ⟨1762293600 * Second, 0⟩ (GoString.ofString "1.2.3.4")
            (GoString.ofString "u1") illFormedEmail (GoString.ofString "admin") = .ok tok ∧
          ParseTokenRaw L ⟨1762293600 * Second, 0⟩ tok (GoString.ofString "1.2.3.4")
            = .error .TokenSignatureInvalid) ∧
      (∃ tok, CreateTokenRaw toyRawLib ⟨1762293600 * Second, 0⟩ (GoString.ofString "1.2.3.4")
          (GoString.ofString "u1") illFormedEmail (GoString.ofString "admin") = .ok tok ∧
        ParseTokenRaw toyRawLib ⟨1762293600 * Second, 0⟩ tok (GoString.ofString "1.2.3.4")
          = .error .TokenSignatureInvalid) ∧
      illFormedUid.ValidString = false ∧
      (∀ L : RawLib,
        NoCollision L.sha256Raw
          (GoString.ofString "1.2.3.4|a@b.c_u1\uFFFD^2025-11-04")
          (GoString.ofString "1.2.3.4|a@b.c_" ++ illFormedUid ++ GoString.ofString "^2025-11-04") →
        (∀ s, CreateTokenRaw L ⟨1762293600 * Second, 0⟩ (GoString.ofString "1.2.3.4")
            illFormedUid (GoString.ofString "a@b.c") (GoString.ofString "admin")
            = .ok (.compact s) →
          NoCollision (fun key => L.hmacSHA256 key s.text)
            (GetJwtStringRaw L ⟨1762293600 * Second, 0⟩ (GoString.ofString "1.2.3.4")
              (GoString.ofString "a@b.c") (GoString.ofString illFormedUid.toValidUTF8))
            (GetJwtStringRaw L ⟨1762293600 * Second, 0⟩ (GoString.ofString "1.2.3.4")
              (GoString.ofString "a@b.c") illFormedUid)) →
        ∃ tok, CreateTokenRaw L ⟨1762293600 * Second, 0⟩ (GoString.ofString "1.2.3.4")
            illFormedUid (GoString.ofString "a@b.c") (GoString.ofString "admin") = .ok tok ∧
          ParseTokenRaw L ⟨1762293600 * Second, 0⟩ tok (GoString.ofString "1.2.3.4")
            = .error .TokenSignatureInvalid) ∧
      (∃ tok, CreateTokenRaw toyRawLib ⟨1762293600 * Second, 0⟩ (GoString.ofString "1.2.3.4")
          illFormedUid (GoString.ofString "a@b.c") (GoString.ofString "admin") = .ok tok ∧
        ParseTokenRaw toyRawLib ⟨1762293600 * Second, 0⟩ tok (GoString.ofString "1.2.3.4")
          = .error .TokenSignatureInvalid) ∧
      illFormedRole.ValidString = false ∧
      (∀ L : RawLib, ∃ tok claims,
        CreateTokenRaw L ⟨1762293600 * Second, 0⟩ (GoString.ofString "1.2.3.4")
          (GoString.ofString "u1") (GoString.ofString "a@b.c") illFormedRole = .ok tok ∧
        ParseTokenRaw L ⟨1762293600 * Second, 0⟩ tok (GoString.ofString "1.2.3.4") = .ok claims ∧
        claims.Role = "admin\uFFFD" ∧ GoString.ofString claims.Role ≠ illFormedRole) := by
  refine ⟨by decide, ParseTokenRaw_illFormedEmail,
    ParseTokenRaw_illFormedEmail toyRawLib (fun _ => by decide)
      (fun s hs _ => by cases hs; decide),
    by decide, ParseTokenRaw_illFormedUid,
    ParseTokenRaw_illFormedUid toyRawLib (fun _ => by decide)
      (fun s hs _ => by cases hs; decide),
    by decide, ?_⟩
  intro L
  obtain ⟨s, h1, h2, -, -, h5, -⟩ := ParseTokenRaw_CreateTokenRaw L ⟨1762293600 * Second, 0⟩
    (GoString.ofString "1.2.3.4") (GoString.ofString "u1") (GoString.ofString "a@b.c")
    illFormedRole (by decide) (by decide)
  have h6 : illFormedRole.toValidUTF8 = "admin\uFFFD" := by decide
  refine ⟨_, _, h1, h2, h5.trans h6, ?_⟩
  rw [h5, h6]
  decide

/-- C1, amended: for every client IP, and for every subject id, email and
role that are well-formed UTF-8 text, with the clock held at `now`,
`CreateToken` returns a token, and `ParseToken` on that token and the same
client IP returns claims whose UserID, Email and Role are the inputs, whose
issuer is "files-receiver" and whose expires-at is exactly 12 hours (43200
seconds) after issued-at. -/
theorem ParseToken_CreateToken_wellformed (L : RawLib) (now : Time)
    (ip uid email role : GoString)
    (huid : uid.ValidString = true) (hemail : email.ValidString = true)
    (hrole : role.ValidString = true) :
    ∃ tok claims, CreateTokenRaw L now ip uid email role = .ok tok ∧
      ParseTokenRaw L now tok ip = .ok claims ∧
      GoString.ofString claims.UserID = uid ∧ GoString.ofString claims.Email = email ∧
      GoString.ofString claims.Role = role ∧
      claims.Issuer = "files-receiver" ∧
      ∃ iat, claims.IssuedAt = some iat ∧ claims.ExpiresAt = some (iat + 12 * 3600) := by
  obtain ⟨s, h1, h2, h3, h4, h5, h6, h7, h8⟩ :=
    ParseTokenRaw_CreateTokenRaw L now ip uid email role huid hemail
  refine ⟨_, _, h1, h2, ?_, ?_, ?_, h6, _, h7, h8⟩
  · rw [h3, GoString.ofString_toValidUTF8 _ huid]
  · rw [h4, GoString.ofString_toValidUTF8 _ hemail]
  · rw [h5, GoString.ofString_toValidUTF8 _ hrole]

theorem ParseToken_CreateToken_wellformed_witness :
    ∃ tok claims,
      CreateTokenRaw toyRawLib ⟨1762293600 * Second, 0⟩ illFormedIP (GoString.ofString "u1")
        (GoString.ofString "zoë@b.c") (GoString.ofString "admin") = .ok tok ∧
      ParseTokenRaw toyRawLib ⟨1762293600 * Second, 0⟩ tok illFormedIP = .ok claims ∧
      GoString.ofString claims.UserID = GoString.ofString "u1" ∧
      GoString.ofString claims.Email = GoString.ofString "zoë@b.c" ∧
      GoString.ofString claims.Role = GoString.ofString "admin" ∧
      claims.Issuer = "files-receiver" ∧
      ∃ iat, claims.IssuedAt = some iat ∧ claims.ExpiresAt = some (iat + 12 * 3600) :=
  have huid : (GoString.ofString "u1").ValidString = true := by decide
  have hemail : (GoString.ofString "zoë@b.c").ValidString = true := by decide
  have hrole : (GoString.ofString "admin").ValidString = true := by decide
  ParseToken_CreateToken_wellformed toyRawLib ⟨1762293600 * Second, 0⟩ illFormedIP
    (GoString.ofString "u1") (GoString.ofString "zoë@b.c") (GoString.ofString "admin")
    huid hemail hrole

end TurtleNetes
